import Mathlib

set_option maxRecDepth 100000

/-!
# Verification of the AES-128 implementation

A shallow embedding of the AES-128 core of the repository: the GF(2^8)
arithmetic and transform primitives (`src/encryption/mix_columns.py`,
`src/encryption/shift_rows.py`, `src/decryption/inv_mix_columns.py`,
`src/decryption/inv_shift_rows.py`, `src/decryption/add_round_key.py`),
the block pipelines (`src/aes_encrypt.py`, `src/aes_decrypt.py`), and the
PKCS7 block-mode wrapper.  Bytes are modelled as `Nat` values below 256,
Python lists as `List`, and Python exceptions (`IndexError` together with
the error taxonomy of spec section 7) as an `Except` result.

Four modules imported by the pipelines are absent from the tree
(`encryption/key_expansion.py`, `encryption/sub_bytes.py`,
`encryption/add_round_key.py`, `decryption/inv_sub_bytes.py`); they are
modelled from the specification, as marked on each such definition.
-/

namespace AES

/-- Error taxonomy of spec section 7 plus the Python `IndexError` that the
reference code can raise on out-of-range indexing. -/
inductive AesError where
  | invalidKeyLength
  | invalidBlockLength
  | invalidPadding
  | indexError
deriving DecidableEq, Repr

/-- Embeds `xtime` from `src/encryption/mix_columns.py` (identical copy in
`src/decryption/inv_mix_columns.py`): multiply by 2 in GF(2^8), reducing by
0x1b when the high bit is set. -/
def xtime (a : Nat) : Nat :=
  if a &&& 0x80 ≠ 0 then ((a <<< 1) ^^^ 0x1b) &&& 0xff
  else (a <<< 1) &&& 0xff

/-- The body of the `while temp_b:` loop of `gf_mult`, run with explicit
fuel.  For `b < 2 ^ fuel` the guard `b = 0` is reached before the fuel runs
out, so with fuel 8 this is exactly the Python loop on byte inputs. -/
def gfLoop : Nat → Nat → Nat → Nat → Nat
  | 0, _, _, result => result
  | fuel + 1, a, b, result =>
    if b = 0 then result
    else gfLoop fuel (xtime a) (b >>> 1)
      (if b &&& 1 = 1 then result ^^^ a else result)

/-- Embeds `gf_mult` from `src/encryption/mix_columns.py` (identical copy in
`src/decryption/inv_mix_columns.py`): Russian-peasant multiplication in
GF(2^8), iterating over the bits of `b`. -/
def gf_mult (a b : Nat) : Nat := gfLoop 8 a b 0

/-- Modelled from the spec: the forward substitution table of
`encryption/key_expansion.py` / `encryption/sub_bytes.py`, which are not
under `src/`.  Spec section 4.2: the fixed 256-entry FIPS-197 forward
S-box. -/
def S_BOX : List Nat := [
  0x63, 0x7c, 0x77, 0x7b, 0xf2, 0x6b, 0x6f, 0xc5, 0x30, 0x01, 0x67, 0x2b, 0xfe, 0xd7, 0xab, 0x76,
  0xca, 0x82, 0xc9, 0x7d, 0xfa, 0x59, 0x47, 0xf0, 0xad, 0xd4, 0xa2, 0xaf, 0x9c, 0xa4, 0x72, 0xc0,
  0xb7, 0xfd, 0x93, 0x26, 0x36, 0x3f, 0xf7, 0xcc, 0x34, 0xa5, 0xe5, 0xf1, 0x71, 0xd8, 0x31, 0x15,
  0x04, 0xc7, 0x23, 0xc3, 0x18, 0x96, 0x05, 0x9a, 0x07, 0x12, 0x80, 0xe2, 0xeb, 0x27, 0xb2, 0x75,
  0x09, 0x83, 0x2c, 0x1a, 0x1b, 0x6e, 0x5a, 0xa0, 0x52, 0x3b, 0xd6, 0xb3, 0x29, 0xe3, 0x2f, 0x84,
  0x53, 0xd1, 0x00, 0xed, 0x20, 0xfc, 0xb1, 0x5b, 0x6a, 0xcb, 0xbe, 0x39, 0x4a, 0x4c, 0x58, 0xcf,
  0xd0, 0xef, 0xaa, 0xfb, 0x43, 0x4d, 0x33, 0x85, 0x45, 0xf9, 0x02, 0x7f, 0x50, 0x3c, 0x9f, 0xa8,
  0x51, 0xa3, 0x40, 0x8f, 0x92, 0x9d, 0x38, 0xf5, 0xbc, 0xb6, 0xda, 0x21, 0x10, 0xff, 0xf3, 0xd2,
  0xcd, 0x0c, 0x13, 0xec, 0x5f, 0x97, 0x44, 0x17, 0xc4, 0xa7, 0x7e, 0x3d, 0x64, 0x5d, 0x19, 0x73,
  0x60, 0x81, 0x4f, 0xdc, 0x22, 0x2a, 0x90, 0x88, 0x46, 0xee, 0xb8, 0x14, 0xde, 0x5e, 0x0b, 0xdb,
  0xe0, 0x32, 0x3a, 0x0a, 0x49, 0x06, 0x24, 0x5c, 0xc2, 0xd3, 0xac, 0x62, 0x91, 0x95, 0xe4, 0x79,
  0xe7, 0xc8, 0x37, 0x6d, 0x8d, 0xd5, 0x4e, 0xa9, 0x6c, 0x56, 0xf4, 0xea, 0x65, 0x7a, 0xae, 0x08,
  0xba, 0x78, 0x25, 0x2e, 0x1c, 0xa6, 0xb4, 0xc6, 0xe8, 0xdd, 0x74, 0x1f, 0x4b, 0xbd, 0x8b, 0x8a,
  0x70, 0x3e, 0xb5, 0x66, 0x48, 0x03, 0xf6, 0x0e, 0x61, 0x35, 0x57, 0xb9, 0x86, 0xc1, 0x1d, 0x9e,
  0xe1, 0xf8, 0x98, 0x11, 0x69, 0xd9, 0x8e, 0x94, 0x9b, 0x1e, 0x87, 0xe9, 0xce, 0x55, 0x28, 0xdf,
  0x8c, 0xa1, 0x89, 0x0d, 0xbf, 0xe6, 0x42, 0x68, 0x41, 0x99, 0x2d, 0x0f, 0xb0, 0x54, 0xbb, 0x16]

/-- Modelled from the spec: the inverse substitution table of
`decryption/inv_sub_bytes.py`, which is not under `src/`.  Spec section
4.2: the exact inverse of the forward table, matching the published
FIPS-197 inverse S-box. -/
def INV_S_BOX : List Nat := [
  0x52, 0x09, 0x6a, 0xd5, 0x30, 0x36, 0xa5, 0x38, 0xbf, 0x40, 0xa3, 0x9e, 0x81, 0xf3, 0xd7, 0xfb,
  0x7c, 0xe3, 0x39, 0x82, 0x9b, 0x2f, 0xff, 0x87, 0x34, 0x8e, 0x43, 0x44, 0xc4, 0xde, 0xe9, 0xcb,
  0x54, 0x7b, 0x94, 0x32, 0xa6, 0xc2, 0x23, 0x3d, 0xee, 0x4c, 0x95, 0x0b, 0x42, 0xfa, 0xc3, 0x4e,
  0x08, 0x2e, 0xa1, 0x66, 0x28, 0xd9, 0x24, 0xb2, 0x76, 0x5b, 0xa2, 0x49, 0x6d, 0x8b, 0xd1, 0x25,
  0x72, 0xf8, 0xf6, 0x64, 0x86, 0x68, 0x98, 0x16, 0xd4, 0xa4, 0x5c, 0xcc, 0x5d, 0x65, 0xb6, 0x92,
  0x6c, 0x70, 0x48, 0x50, 0xfd, 0xed, 0xb9, 0xda, 0x5e, 0x15, 0x46, 0x57, 0xa7, 0x8d, 0x9d, 0x84,
  0x90, 0xd8, 0xab, 0x00, 0x8c, 0xbc, 0xd3, 0x0a, 0xf7, 0xe4, 0x58, 0x05, 0xb8, 0xb3, 0x45, 0x06,
  0xd0, 0x2c, 0x1e, 0x8f, 0xca, 0x3f, 0x0f, 0x02, 0xc1, 0xaf, 0xbd, 0x03, 0x01, 0x13, 0x8a, 0x6b,
  0x3a, 0x91, 0x11, 0x41, 0x4f, 0x67, 0xdc, 0xea, 0x97, 0xf2, 0xcf, 0xce, 0xf0, 0xb4, 0xe6, 0x73,
  0x96, 0xac, 0x74, 0x22, 0xe7, 0xad, 0x35, 0x85, 0xe2, 0xf9, 0x37, 0xe8, 0x1c, 0x75, 0xdf, 0x6e,
  0x47, 0xf1, 0x1a, 0x71, 0x1d, 0x29, 0xc5, 0x89, 0x6f, 0xb7, 0x62, 0x0e, 0xaa, 0x18, 0xbe, 0x1b,
  0xfc, 0x56, 0x3e, 0x4b, 0xc6, 0xd2, 0x79, 0x20, 0x9a, 0xdb, 0xc0, 0xfe, 0x78, 0xcd, 0x5a, 0xf4,
  0x1f, 0xdd, 0xa8, 0x33, 0x88, 0x07, 0xc7, 0x31, 0xb1, 0x12, 0x10, 0x59, 0x27, 0x80, 0xec, 0x5f,
  0x60, 0x51, 0x7f, 0xa9, 0x19, 0xb5, 0x4a, 0x0d, 0x2d, 0xe5, 0x7a, 0x9f, 0x93, 0xc9, 0x9c, 0xef,
  0xa0, 0xe0, 0x3b, 0x4d, 0xae, 0x2a, 0xf5, 0xb0, 0xc8, 0xeb, 0xbb, 0x3c, 0x83, 0x53, 0x99, 0x61,
  0x17, 0x2b, 0x04, 0x7e, 0xba, 0x77, 0xd6, 0x26, 0xe1, 0x69, 0x14, 0x63, 0x55, 0x21, 0x0c, 0x7d]

/-- A 4x4 state matrix, as in the Python sources: a list of row lists. -/
abbrev State := List (List Nat)

/-- Embeds `bytes_to_state` from `src/aes_encrypt.py` (identical copy in
`src/aes_decrypt.py`): column-major load of 16 bytes into a 4x4 state.
Python raises `IndexError` when `data` has fewer than 16 entries, modelled
by `none`. -/
def bytes_to_state (data : List Nat) : Option State :=
  (List.range 4).mapM (fun row => (List.range 4).mapM (fun col => data.get? (row + 4 * col)))

/-- Embeds `state_to_bytes` from `src/aes_encrypt.py` (identical copy in
`src/aes_decrypt.py`): column-major read of the 4x4 state back into 16
bytes. -/
def state_to_bytes (state : State) : List Nat :=
  (List.range 4).flatMap (fun col => (List.range 4).map (fun row => (state.getD row []).getD col 0))

/-- Embeds `add_round_key` from `src/decryption/add_round_key.py`, whose
doc string records that it is the same operation as the encryption module
version (`encryption/add_round_key.py`, not under `src/`, is modelled from
the spec as this same bytewise XOR, spec section 4.4). -/
def add_round_key (state round_key : State) : State :=
  (List.range 4).map (fun i => (List.range 4).map (fun j =>
    (state.getD i []).getD j 0 ^^^ (round_key.getD i []).getD j 0))

/-- Modelled from the spec: `sub_bytes` from `encryption/sub_bytes.py`,
which is not under `src/`.  Spec section 4.4: replace every byte via the
forward S-box. -/
def sub_bytes (state : State) : State :=
  state.map (fun row => row.map (fun b => S_BOX.getD b 0))

/-- Modelled from the spec: `inv_sub_bytes` from
`decryption/inv_sub_bytes.py`, which is not under `src/`.  Spec section
4.4: replace every byte via the inverse S-box. -/
def inv_sub_bytes (state : State) : State :=
  state.map (fun row => row.map (fun b => INV_S_BOX.getD b 0))

/-- Embeds `shift_rows` from `src/encryption/shift_rows.py`: row `r` is
rotated left by `r` positions, written with the same slice arithmetic as
the Python source (`state[r][r:] + state[r][:r]`). -/
def shift_rows (state : State) : State :=
  [state.getD 0 [],
   (state.getD 1 []).drop 1 ++ (state.getD 1 []).take 1,
   (state.getD 2 []).drop 2 ++ (state.getD 2 []).take 2,
   (state.getD 3 []).drop 3 ++ (state.getD 3 []).take 3]

/-- Embeds `inv_shift_rows` from `src/decryption/inv_shift_rows.py`: row
`r` is rotated right by `r` positions; the Python negative slices
`state[r][-r:] + state[r][:-r]` become drop/take at `length - r`. -/
def inv_shift_rows (state : State) : State :=
  [state.getD 0 [],
   (state.getD 1 []).drop ((state.getD 1 []).length - 1) ++
     (state.getD 1 []).take ((state.getD 1 []).length - 1),
   (state.getD 2 []).drop ((state.getD 2 []).length - 2) ++
     (state.getD 2 []).take ((state.getD 2 []).length - 2),
   (state.getD 3 []).drop ((state.getD 3 []).length - 3) ++
     (state.getD 3 []).take ((state.getD 3 []).length - 3)]

/-- Embeds `mix_single_column` from `src/encryption/mix_columns.py`:
multiply one column by the fixed MixColumns matrix over GF(2^8). -/
def mix_single_column : List Nat → List Nat
  | [s0, s1, s2, s3] =>
    [gf_mult 0x02 s0 ^^^ gf_mult 0x03 s1 ^^^ s2 ^^^ s3,
     s0 ^^^ gf_mult 0x02 s1 ^^^ gf_mult 0x03 s2 ^^^ s3,
     s0 ^^^ s1 ^^^ gf_mult 0x02 s2 ^^^ gf_mult 0x03 s3,
     gf_mult 0x03 s0 ^^^ s1 ^^^ s2 ^^^ gf_mult 0x02 s3]
  | column => column

/-- Embeds `mix_columns` from `src/encryption/mix_columns.py`: transform
each column and reassemble `result[row][col] = new_column[row]`. -/
def mix_columns (state : State) : State :=
  let cols := (List.range 4).map (fun col =>
    mix_single_column ((List.range 4).map (fun row => (state.getD row []).getD col 0)))
  (List.range 4).map (fun row => (List.range 4).map (fun col => (cols.getD col []).getD row 0))

/-- Embeds `inv_mix_single_column` from
`src/decryption/inv_mix_columns.py`: multiply one column by the inverse
MixColumns matrix over GF(2^8). -/
def inv_mix_single_column : List Nat → List Nat
  | [s0, s1, s2, s3] =>
    [gf_mult 0x0e s0 ^^^ gf_mult 0x0b s1 ^^^ gf_mult 0x0d s2 ^^^ gf_mult 0x09 s3,
     gf_mult 0x09 s0 ^^^ gf_mult 0x0e s1 ^^^ gf_mult 0x0b s2 ^^^ gf_mult 0x0d s3,
     gf_mult 0x0d s0 ^^^ gf_mult 0x09 s1 ^^^ gf_mult 0x0e s2 ^^^ gf_mult 0x0b s3,
     gf_mult 0x0b s0 ^^^ gf_mult 0x0d s1 ^^^ gf_mult 0x09 s2 ^^^ gf_mult 0x0e s3]
  | column => column

/-- Embeds `inv_mix_columns` from `src/decryption/inv_mix_columns.py`:
transform each column by the inverse matrix and reassemble. -/
def inv_mix_columns (state : State) : State :=
  let cols := (List.range 4).map (fun col =>
    inv_mix_single_column ((List.range 4).map (fun row => (state.getD row []).getD col 0)))
  (List.range 4).map (fun row => (List.range 4).map (fun col => (cols.getD col []).getD row 0))

/-- Modelled from the spec: `rot_word` of `encryption/key_expansion.py`,
which is not under `src/`.  Spec section 4.3: cyclic left rotation of a
4-byte word by one position. -/
def rot_word (w : List Nat) : List Nat := w.drop 1 ++ w.take 1

/-- Modelled from the spec: `sub_word` of `encryption/key_expansion.py`,
which is not under `src/`.  Spec section 4.3: apply the S-box to each byte
of a word. -/
def sub_word (w : List Nat) : List Nat := w.map (fun b => S_BOX.getD b 0)

/-- Modelled from the spec: `xor_words` of `encryption/key_expansion.py`,
which is not under `src/`: bytewise XOR of two 4-byte words. -/
def xor_words (w1 w2 : List Nat) : List Nat := List.zipWith (· ^^^ ·) w1 w2

/-- Modelled from the spec: the `RCON` table of
`encryption/key_expansion.py`, which is not under `src/`.  Spec section
4.3: `Rcon[1] = 0x01000000` and each later leading byte doubled in
GF(2^8); stored here as the leading bytes, with a zero placeholder at
index 0. -/
def RCON : List Nat := [0x00, 0x01, 0x02, 0x04, 0x08, 0x10, 0x20, 0x40, 0x80, 0x1b, 0x36]

/-- Modelled from the spec: the word-expansion loop of `key_expansion` in
`encryption/key_expansion.py`, which is not under `src/`.  Spec section
4.3: words 0 to 3 equal the key; for `i` from 4 to 43, `temp = word[i-1]`,
rotated/substituted and XORed with `Rcon[i/4]` when `i mod 4 = 0`, and
`word[i] = word[i-4] XOR temp`. -/
def expandWords (key : List Nat) : List (List Nat) :=
  let init := (List.range 4).map (fun j => (List.range 4).map (fun t => key.getD (4 * j + t) 0))
  (List.range' 4 40).foldl (fun ws i =>
    let temp := ws.getD (i - 1) []
    let temp := if i % 4 = 0 then
        xor_words (sub_word (rot_word temp)) [RCON.getD (i / 4) 0, 0, 0, 0]
      else temp
    ws ++ [xor_words (ws.getD (i - 4) []) temp]) init

/-- Modelled from the spec: `key_expansion` of
`encryption/key_expansion.py`, which is not under `src/` (the decryption
module `src/decryption/key_expansion.py` merely re-exports it).  Spec
sections 4.3 and 6: exactly 16 key bytes, failing with `InvalidKeyLength`
otherwise; the output is 11 round keys, round key `r` being words
`4r .. 4r+3` arranged as a column-major state. -/
def key_expansion (key : List Nat) : Except AesError (List State) :=
  if key.length ≠ 16 then .error .invalidKeyLength
  else
    let ws := expandWords key
    .ok ((List.range 11).map (fun r =>
      (List.range 4).map (fun row => (List.range 4).map (fun col =>
        (ws.getD (4 * r + col) []).getD row 0))))

/-- Embeds `encrypt_block` from `src/aes_encrypt.py`: key expansion,
initial AddRoundKey with round key 0, nine main rounds of SubBytes,
ShiftRows, MixColumns, AddRoundKey, and a final round without MixColumns
using round key 10.  The `verbose` printing of the source is presentation
only and is dropped. -/
def encrypt_block (plaintext key : List Nat) : Except AesError (List Nat) := do
  let round_keys ← key_expansion key
  match bytes_to_state plaintext with
  | none => .error .indexError
  | some st0 =>
    let st1 := add_round_key st0 (round_keys.getD 0 [])
    let st2 := (List.range' 1 9).foldl (fun st round_num =>
      add_round_key (mix_columns (shift_rows (sub_bytes st))) (round_keys.getD round_num [])) st1
    let st3 := add_round_key (shift_rows (sub_bytes st2)) (round_keys.getD 10 [])
    .ok (state_to_bytes st3)

/-- Embeds `decrypt_block` from `src/aes_decrypt.py`: key expansion,
initial AddRoundKey with round key 10, nine rounds of InvShiftRows,
InvSubBytes, AddRoundKey, InvMixColumns for round keys 9 down to 1, and a
final round without InvMixColumns using round key 0. -/
def decrypt_block (ciphertext key : List Nat) : Except AesError (List Nat) := do
  let round_keys ← key_expansion key
  match bytes_to_state ciphertext with
  | none => .error .indexError
  | some st0 =>
    let st1 := add_round_key st0 (round_keys.getD 10 [])
    let st2 := ((List.range' 1 9).reverse).foldl (fun st round_num =>
      inv_mix_columns (add_round_key (inv_sub_bytes (inv_shift_rows st))
        (round_keys.getD round_num []))) st1
    let st3 := add_round_key (inv_sub_bytes (inv_shift_rows st2)) (round_keys.getD 0 [])
    .ok (state_to_bytes st3)

/-- Embeds `encrypt` from `src/aes_encrypt.py`: PKCS7 padding with
`padding_len = 16 - len(plaintext) % 16`, then block-by-block encryption
over `range(0, len(padded), 16)`. -/
def encrypt (plaintext key : List Nat) : Except AesError (List Nat) :=
  let block_size := 16
  let padding_len := block_size - plaintext.length % block_size
  let padded := plaintext ++ List.replicate padding_len padding_len
  (List.range' 0 ((padded.length + 15) / 16) 16).foldlM (fun acc i => do
    let c ← encrypt_block ((padded.drop i).take 16) key
    pure (acc ++ c)) []

/-- Embeds `decrypt` from `src/aes_decrypt.py`: block-by-block decryption
over `range(0, len(ciphertext), 16)`, then the PKCS7 check of the source:
read the trailing byte (Python `plaintext[-1]`, an `IndexError` on an
empty buffer, modelled as that error), and strip the trailing bytes only
when `0 < n <= 16` and the last `n` bytes all equal `n`; otherwise the
buffer is returned unmodified. -/
def decrypt (ciphertext key : List Nat) : Except AesError (List Nat) := do
  let block_size := 16
  let plaintext ← (List.range' 0 ((ciphertext.length + 15) / 16) 16).foldlM (fun acc i => do
    let p ← decrypt_block ((ciphertext.drop i).take 16) key
    pure (acc ++ p)) ([] : List Nat)
  match plaintext.getLast? with
  | none => .error .indexError
  | some padding_len =>
    if padding_len > 0 ∧ padding_len ≤ block_size then
      if (plaintext.drop (plaintext.length - padding_len)).all (· == padding_len) then
        .ok (plaintext.take (plaintext.length - padding_len))
      else .ok plaintext
    else .ok plaintext

/-- Proof-side restatement of the block loops of `encrypt` and `decrypt`:
process `n` 16-byte chunks of the buffer through `f`, concatenating the
results and propagating the first error.  The lemmas below show the
`range(0, len, 16)` folds of the source equal to this recursion. -/
def chunksM (f : List Nat → Except AesError (List Nat)) : Nat → List Nat → Except AesError (List Nat)
  | 0, _ => .ok []
  | n + 1, l => do
    let c ← f (l.take 16)
    let rest ← chunksM f n (l.drop 16)
    pure (c ++ rest)

/-- The FIPS-197 Appendix B key used by the `__main__` blocks of
`src/aes_encrypt.py` and `src/aes_decrypt.py`. -/
def fipsKey : List Nat := [0x2b, 0x7e, 0x15, 0x16, 0x28, 0xae, 0xd2, 0xa6,
  0xab, 0xf7, 0x15, 0x88, 0x09, 0xcf, 0x4f, 0x3c]

/-- The FIPS-197 Appendix B plaintext block of the same test vectors. -/
def fipsPT : List Nat := [0x32, 0x43, 0xf6, 0xa8, 0x88, 0x5a, 0x30, 0x8d,
  0x31, 0x31, 0x98, 0xa2, 0xe0, 0x37, 0x07, 0x34]

/-- The FIPS-197 Appendix B ciphertext block of the same test vectors. -/
def fipsCT : List Nat := [0x39, 0x25, 0x84, 0x1d, 0x02, 0xdc, 0x09, 0xfb,
  0xdc, 0x11, 0x85, 0x97, 0x19, 0x6a, 0x0b, 0x32]

/-- A well-formed working state: a 4x4 matrix whose entries are bytes. -/
def GoodState (s : State) : Prop :=
  s.length = 4 ∧ ∀ r ∈ s, r.length = 4 ∧ ∀ b ∈ r, b < 256

/-- A well-formed byte string: every entry is a byte. -/
def GoodBytes (l : List Nat) : Prop := ∀ b ∈ l, b < 256

instance (s : State) : Decidable (GoodState s) := by unfold GoodState; infer_instance

instance (l : List Nat) : Decidable (GoodBytes l) := by unfold GoodBytes; infer_instance


/-! ## Byte-level arithmetic lemmas -/

theorem and_255_lt (x : Nat) : x &&& 255 < 256 := by
  have h := Nat.and_lt_two_pow x (show (255 : Nat) < 2 ^ 8 by norm_num)
  norm_num at h
  exact h

theorem xor_lt_256 {a b : Nat} (ha : a < 256) (hb : b < 256) : a ^^^ b < 256 := by
  have h := Nat.xor_lt_two_pow (show a < 2 ^ 8 by norm_num [ha])
    (show b < 2 ^ 8 by norm_num [hb])
  norm_num at h
  exact h

theorem xor_left_comm (a b c : Nat) : a ^^^ (b ^^^ c) = b ^^^ (a ^^^ c) := by
  rw [← Nat.xor_assoc, Nat.xor_comm a b, Nat.xor_assoc]

theorem xtime_lt (a : Nat) : xtime a < 256 := by
  unfold xtime
  split <;> exact and_255_lt _

theorem gfLoop_lt : ∀ n a b r, a < 256 → r < 256 → gfLoop n a b r < 256 := by
  intro n
  induction n with
  | zero => intro a b r _ hr; simpa [gfLoop] using hr
  | succ n ih =>
    intro a b r ha hr
    unfold gfLoop
    split
    · exact hr
    · apply ih _ _ _ (xtime_lt a)
      split
      · exact xor_lt_256 hr ha
      · exact hr

theorem gfLoop_acc : ∀ n a b r, gfLoop n a b r = r ^^^ gfLoop n a b 0 := by
  intro n
  induction n with
  | zero => intro a b r; simp [gfLoop]
  | succ n ih =>
    intro a b r
    unfold gfLoop
    split
    · simp
    · rw [ih (xtime a) (b >>> 1) (if b &&& 1 = 1 then r ^^^ a else r),
          ih (xtime a) (b >>> 1) (if b &&& 1 = 1 then 0 ^^^ a else 0)]
      split <;> simp [Nat.xor_assoc]

theorem gfLoop_linear : ∀ n a b1 b2, b1 < 2 ^ n → b2 < 2 ^ n →
    gfLoop n a (b1 ^^^ b2) 0 = gfLoop n a b1 0 ^^^ gfLoop n a b2 0 := by
  intro n
  induction n with
  | zero =>
    intro a b1 b2 h1 h2
    rw [pow_zero] at h1 h2
    have e1 : b1 = 0 := by omega
    have e2 : b2 = 0 := by omega
    subst e1; subst e2
    simp [gfLoop]
  | succ n ih =>
    intro a b1 b2 h1 h2
    rcases Nat.eq_zero_or_pos b1 with hb1 | hb1
    · subst hb1; simp [gfLoop]
    rcases Nat.eq_zero_or_pos b2 with hb2 | hb2
    · subst hb2; simp [gfLoop]
    rcases Nat.eq_zero_or_pos (b1 ^^^ b2) with hx | hx
    · rw [hx, Nat.xor_eq_zero.mp hx]
      simp [gfLoop]
    rw [pow_succ] at h1 h2
    have hs1 : b1 >>> 1 < 2 ^ n := by rw [Nat.shiftRight_one]; omega
    have hs2 : b2 >>> 1 < 2 ^ n := by rw [Nat.shiftRight_one]; omega
    have hsx : (b1 ^^^ b2) >>> 1 = (b1 >>> 1) ^^^ (b2 >>> 1) := by
      simp [Nat.shiftRight_one, Nat.xor_div_two]
    conv_lhs => rw [gfLoop]
    conv_rhs => rw [gfLoop, gfLoop]
    rw [if_neg (Nat.pos_iff_ne_zero.mp hx), if_neg (Nat.pos_iff_ne_zero.mp hb1),
        if_neg (Nat.pos_iff_ne_zero.mp hb2)]
    rw [gfLoop_acc n (xtime a) ((b1 ^^^ b2) >>> 1)
          (if (b1 ^^^ b2) &&& 1 = 1 then 0 ^^^ a else 0),
        gfLoop_acc n (xtime a) (b1 >>> 1) (if b1 &&& 1 = 1 then 0 ^^^ a else 0),
        gfLoop_acc n (xtime a) (b2 >>> 1) (if b2 &&& 1 = 1 then 0 ^^^ a else 0)]
    rw [hsx, ih (xtime a) (b1 >>> 1) (b2 >>> 1) hs1 hs2]
    have hm : (b1 ^^^ b2) &&& 1 = (b1 &&& 1) ^^^ (b2 &&& 1) :=
      Nat.and_xor_distrib_right
    have e1 : b1 &&& 1 = b1 % 2 := Nat.and_one_is_mod b1
    have e2 : b2 &&& 1 = b2 % 2 := Nat.and_one_is_mod b2
    rcases Nat.mod_two_eq_zero_or_one b1 with m1 | m1 <;>
      rcases Nat.mod_two_eq_zero_or_one b2 with m2 | m2 <;>
      rw [hm, e1, e2, m1, m2] <;>
      simp [Nat.xor_assoc, xor_left_comm, Nat.xor_cancel_left]

theorem gf_mult_linear {b1 b2 : Nat} (a : Nat) (h1 : b1 < 256) (h2 : b2 < 256) :
    gf_mult a (b1 ^^^ b2) = gf_mult a b1 ^^^ gf_mult a b2 :=
  gfLoop_linear 8 a b1 b2 (by norm_num [h1]) (by norm_num [h2])

theorem gf_mult_lt (a b : Nat) (ha : a < 256) : gf_mult a b < 256 :=
  gfLoop_lt 8 a b 0 ha (by norm_num)

theorem gf_linear4 (c : Nat) {x y z w : Nat} (hx : x < 256) (hy : y < 256)
    (hz : z < 256) (hw : w < 256) :
    gf_mult c (x ^^^ y ^^^ z ^^^ w) =
      gf_mult c x ^^^ gf_mult c y ^^^ gf_mult c z ^^^ gf_mult c w := by
  rw [gf_mult_linear c (xor_lt_256 (xor_lt_256 hx hy) hz) hw,
      gf_mult_linear c (xor_lt_256 hx hy) hz, gf_mult_linear c hx hy]

/-! ## Table lemmas -/

theorem getD_lt_256 (l : List Nat) (h : ∀ x ∈ l, x < 256) (n : Nat) :
    l.getD n 0 < 256 := by
  rcases Nat.lt_or_ge n l.length with hl | hl
  · rw [List.getD_eq_getElem l 0 hl]
    exact h _ (List.getElem_mem hl)
  · rw [List.getD_eq_default l 0 hl]
    norm_num

theorem sbox_getD_lt (b : Nat) : S_BOX.getD b 0 < 256 :=
  getD_lt_256 S_BOX (by decide) b

theorem inv_sbox_getD_lt (b : Nat) : INV_S_BOX.getD b 0 < 256 :=
  getD_lt_256 INV_S_BOX (by decide) b

theorem sbox_inv_fin : ∀ x : Fin 256, INV_S_BOX.getD (S_BOX.getD x.val 0) 0 = x.val := by
  decide

theorem sbox_inv_nat {b : Nat} (hb : b < 256) :
    INV_S_BOX.getD (S_BOX.getD b 0) 0 = b :=
  sbox_inv_fin ⟨b, hb⟩

theorem sbox_getElem_lt (b : Nat) : (S_BOX[b]?).getD 0 < 256 := by
  rw [← List.getD_eq_getElem?_getD]
  exact sbox_getD_lt b

theorem inv_sbox_getElem_lt (b : Nat) : (INV_S_BOX[b]?).getD 0 < 256 := by
  rw [← List.getD_eq_getElem?_getD]
  exact inv_sbox_getD_lt b

theorem getElem?_lt_256 (l : List Nat) (h : ∀ x ∈ l, x < 256) (n : Nat) :
    (l[n]?).getD 0 < 256 := by
  rw [← List.getD_eq_getElem?_getD]
  exact getD_lt_256 l h n


/-! ## State destructuring -/

theorem row_destruct (l : List Nat) (hlen : l.length = 4) (hmem : ∀ b ∈ l, b < 256) :
    ∃ a b c d, l = [a, b, c, d] ∧ a < 256 ∧ b < 256 ∧ c < 256 ∧ d < 256 := by
  match l, hlen with
  | [a, b, c, d], _ =>
    exact ⟨a, b, c, d, rfl, hmem a (by simp), hmem b (by simp), hmem c (by simp),
      hmem d (by simp)⟩

theorem state_destruct (s : State) (hs : GoodState s) :
    ∃ a0 a1 a2 a3 b0 b1 b2 b3 c0 c1 c2 c3 d0 d1 d2 d3,
      s = [[a0, a1, a2, a3], [b0, b1, b2, b3], [c0, c1, c2, c3], [d0, d1, d2, d3]] ∧
      a0 < 256 ∧ a1 < 256 ∧ a2 < 256 ∧ a3 < 256 ∧
      b0 < 256 ∧ b1 < 256 ∧ b2 < 256 ∧ b3 < 256 ∧
      c0 < 256 ∧ c1 < 256 ∧ c2 < 256 ∧ c3 < 256 ∧
      d0 < 256 ∧ d1 < 256 ∧ d2 < 256 ∧ d3 < 256 := by
  obtain ⟨hlen, hrows⟩ := hs
  match s, hlen with
  | [r0, r1, r2, r3], _ =>
    obtain ⟨a0, a1, a2, a3, he0, ha0, ha1, ha2, ha3⟩ :=
      row_destruct r0 (hrows r0 (by simp)).1 (hrows r0 (by simp)).2
    obtain ⟨b0, b1, b2, b3, he1, hb0, hb1, hb2, hb3⟩ :=
      row_destruct r1 (hrows r1 (by simp)).1 (hrows r1 (by simp)).2
    obtain ⟨c0, c1, c2, c3, he2, hc0, hc1, hc2, hc3⟩ :=
      row_destruct r2 (hrows r2 (by simp)).1 (hrows r2 (by simp)).2
    obtain ⟨d0, d1, d2, d3, he3, hd0, hd1, hd2, hd3⟩ :=
      row_destruct r3 (hrows r3 (by simp)).1 (hrows r3 (by simp)).2
    subst he0; subst he1; subst he2; subst he3
    exact ⟨a0, a1, a2, a3, b0, b1, b2, b3, c0, c1, c2, c3, d0, d1, d2, d3, rfl,
      ha0, ha1, ha2, ha3, hb0, hb1, hb2, hb3, hc0, hc1, hc2, hc3, hd0, hd1, hd2, hd3⟩

/-! ## Transform cancellation lemmas -/

theorem inv_shift_shift (s : State) (hs : GoodState s) :
    inv_shift_rows (shift_rows s) = s := by
  obtain ⟨a0, a1, a2, a3, b0, b1, b2, b3, c0, c1, c2, c3, d0, d1, d2, d3, he, _⟩ :=
    state_destruct s hs
  subst he
  rfl

theorem inv_sub_sub (s : State) (hs : GoodState s) :
    inv_sub_bytes (sub_bytes s) = s := by
  obtain ⟨a0, a1, a2, a3, b0, b1, b2, b3, c0, c1, c2, c3, d0, d1, d2, d3, he,
    ha0, ha1, ha2, ha3, hb0, hb1, hb2, hb3, hc0, hc1, hc2, hc3, hd0, hd1, hd2, hd3⟩ :=
    state_destruct s hs
  subst he
  simp only [sub_bytes, inv_sub_bytes, List.map]
  rw [sbox_inv_nat ha0, sbox_inv_nat ha1, sbox_inv_nat ha2, sbox_inv_nat ha3,
      sbox_inv_nat hb0, sbox_inv_nat hb1, sbox_inv_nat hb2, sbox_inv_nat hb3,
      sbox_inv_nat hc0, sbox_inv_nat hc1, sbox_inv_nat hc2, sbox_inv_nat hc3,
      sbox_inv_nat hd0, sbox_inv_nat hd1, sbox_inv_nat hd2, sbox_inv_nat hd3]

theorem ark_ark (s k : State) (hs : GoodState s) (hk : GoodState k) :
    add_round_key (add_round_key s k) k = s := by
  obtain ⟨a0, a1, a2, a3, b0, b1, b2, b3, c0, c1, c2, c3, d0, d1, d2, d3, he, _⟩ :=
    state_destruct s hs
  obtain ⟨k0, k1, k2, k3, k4, k5, k6, k7, k8, k9, k10, k11, k12, k13, k14, k15, hke, _⟩ :=
    state_destruct k hk
  subst he; subst hke
  show [[a0 ^^^ k0 ^^^ k0, a1 ^^^ k1 ^^^ k1, a2 ^^^ k2 ^^^ k2, a3 ^^^ k3 ^^^ k3],
        [b0 ^^^ k4 ^^^ k4, b1 ^^^ k5 ^^^ k5, b2 ^^^ k6 ^^^ k6, b3 ^^^ k7 ^^^ k7],
        [c0 ^^^ k8 ^^^ k8, c1 ^^^ k9 ^^^ k9, c2 ^^^ k10 ^^^ k10, c3 ^^^ k11 ^^^ k11],
        [d0 ^^^ k12 ^^^ k12, d1 ^^^ k13 ^^^ k13, d2 ^^^ k14 ^^^ k14, d3 ^^^ k15 ^^^ k15]]
      = [[a0, a1, a2, a3], [b0, b1, b2, b3], [c0, c1, c2, c3], [d0, d1, d2, d3]]
  simp [Nat.xor_cancel_right]

/-! ## MixColumns inversion -/

theorem mix_coeff_id : ∀ x : Fin 256,
    gf_mult 14 (gf_mult 2 x.val) ^^^ gf_mult 11 x.val ^^^ gf_mult 13 x.val ^^^
      gf_mult 9 (gf_mult 3 x.val) = x.val := by
  decide

theorem mix_coeff_z1 : ∀ x : Fin 256,
    gf_mult 14 (gf_mult 3 x.val) ^^^ gf_mult 11 (gf_mult 2 x.val) ^^^ gf_mult 13 x.val ^^^
      gf_mult 9 x.val = 0 := by
  decide

theorem mix_coeff_z2 : ∀ x : Fin 256,
    gf_mult 14 x.val ^^^ gf_mult 11 (gf_mult 3 x.val) ^^^ gf_mult 13 (gf_mult 2 x.val) ^^^
      gf_mult 9 x.val = 0 := by
  decide

theorem mix_coeff_z3 : ∀ x : Fin 256,
    gf_mult 14 x.val ^^^ gf_mult 11 x.val ^^^ gf_mult 13 (gf_mult 3 x.val) ^^^
      gf_mult 9 (gf_mult 2 x.val) = 0 := by
  decide

theorem mix_id {x : Nat} (hx : x < 256) :
    gf_mult 14 (gf_mult 2 x) ^^^ gf_mult 11 x ^^^ gf_mult 13 x ^^^ gf_mult 9 (gf_mult 3 x) = x :=
  mix_coeff_id ⟨x, hx⟩

theorem mix_z1 {x : Nat} (hx : x < 256) :
    gf_mult 14 (gf_mult 3 x) ^^^ gf_mult 11 (gf_mult 2 x) ^^^ gf_mult 13 x ^^^ gf_mult 9 x = 0 :=
  mix_coeff_z1 ⟨x, hx⟩

theorem mix_z2 {x : Nat} (hx : x < 256) :
    gf_mult 14 x ^^^ gf_mult 11 (gf_mult 3 x) ^^^ gf_mult 13 (gf_mult 2 x) ^^^ gf_mult 9 x = 0 :=
  mix_coeff_z2 ⟨x, hx⟩

theorem mix_z3 {x : Nat} (hx : x < 256) :
    gf_mult 14 x ^^^ gf_mult 11 x ^^^ gf_mult 13 (gf_mult 3 x) ^^^ gf_mult 9 (gf_mult 2 x) = 0 :=
  mix_coeff_z3 ⟨x, hx⟩

theorem comp0 {a b c d : Nat} (ha : a < 256) (hb : b < 256) (hc : c < 256) (hd : d < 256) :
    gf_mult 14 (gf_mult 2 a ^^^ gf_mult 3 b ^^^ c ^^^ d) ^^^
    gf_mult 11 (a ^^^ gf_mult 2 b ^^^ gf_mult 3 c ^^^ d) ^^^
    gf_mult 13 (a ^^^ b ^^^ gf_mult 2 c ^^^ gf_mult 3 d) ^^^
    gf_mult 9 (gf_mult 3 a ^^^ b ^^^ c ^^^ gf_mult 2 d) = a := by
  have h2a := gf_mult_lt 2 a (by norm_num)
  have h3a := gf_mult_lt 3 a (by norm_num)
  have h2b := gf_mult_lt 2 b (by norm_num)
  have h3b := gf_mult_lt 3 b (by norm_num)
  have h2c := gf_mult_lt 2 c (by norm_num)
  have h3c := gf_mult_lt 3 c (by norm_num)
  have h2d := gf_mult_lt 2 d (by norm_num)
  have h3d := gf_mult_lt 3 d (by norm_num)
  rw [gf_linear4 14 h2a h3b hc hd, gf_linear4 11 ha h2b h3c hd,
      gf_linear4 13 ha hb h2c h3d, gf_linear4 9 h3a hb hc h2d]
  have hA := mix_id ha
  have hB := mix_z1 hb
  have hC := mix_z2 hc
  have hD := mix_z3 hd
  calc gf_mult 14 (gf_mult 2 a) ^^^ gf_mult 14 (gf_mult 3 b) ^^^ gf_mult 14 c ^^^ gf_mult 14 d ^^^
        (gf_mult 11 a ^^^ gf_mult 11 (gf_mult 2 b) ^^^ gf_mult 11 (gf_mult 3 c) ^^^ gf_mult 11 d) ^^^
        (gf_mult 13 a ^^^ gf_mult 13 b ^^^ gf_mult 13 (gf_mult 2 c) ^^^ gf_mult 13 (gf_mult 3 d)) ^^^
        (gf_mult 9 (gf_mult 3 a) ^^^ gf_mult 9 b ^^^ gf_mult 9 c ^^^ gf_mult 9 (gf_mult 2 d))
      = (gf_mult 14 (gf_mult 2 a) ^^^ gf_mult 11 a ^^^ gf_mult 13 a ^^^ gf_mult 9 (gf_mult 3 a)) ^^^
        ((gf_mult 14 (gf_mult 3 b) ^^^ gf_mult 11 (gf_mult 2 b) ^^^ gf_mult 13 b ^^^ gf_mult 9 b) ^^^
         ((gf_mult 14 c ^^^ gf_mult 11 (gf_mult 3 c) ^^^ gf_mult 13 (gf_mult 2 c) ^^^ gf_mult 9 c) ^^^
          (gf_mult 14 d ^^^ gf_mult 11 d ^^^ gf_mult 13 (gf_mult 3 d) ^^^ gf_mult 9 (gf_mult 2 d)))) := by
        simp [Nat.xor_assoc, Nat.xor_comm, xor_left_comm]
    _ = a := by rw [hA, hB, hC, hD]; simp

theorem comp1 {a b c d : Nat} (ha : a < 256) (hb : b < 256) (hc : c < 256) (hd : d < 256) :
    gf_mult 9 (gf_mult 2 a ^^^ gf_mult 3 b ^^^ c ^^^ d) ^^^
    gf_mult 14 (a ^^^ gf_mult 2 b ^^^ gf_mult 3 c ^^^ d) ^^^
    gf_mult 11 (a ^^^ b ^^^ gf_mult 2 c ^^^ gf_mult 3 d) ^^^
    gf_mult 13 (gf_mult 3 a ^^^ b ^^^ c ^^^ gf_mult 2 d) = b := by
  have h2a := gf_mult_lt 2 a (by norm_num)
  have h3a := gf_mult_lt 3 a (by norm_num)
  have h2b := gf_mult_lt 2 b (by norm_num)
  have h3b := gf_mult_lt 3 b (by norm_num)
  have h2c := gf_mult_lt 2 c (by norm_num)
  have h3c := gf_mult_lt 3 c (by norm_num)
  have h2d := gf_mult_lt 2 d (by norm_num)
  have h3d := gf_mult_lt 3 d (by norm_num)
  rw [gf_linear4 9 h2a h3b hc hd, gf_linear4 14 ha h2b h3c hd,
      gf_linear4 11 ha hb h2c h3d, gf_linear4 13 h3a hb hc h2d]
  have hA := mix_z3 ha
  have hB := mix_id hb
  have hC := mix_z1 hc
  have hD := mix_z2 hd
  calc gf_mult 9 (gf_mult 2 a) ^^^ gf_mult 9 (gf_mult 3 b) ^^^ gf_mult 9 c ^^^ gf_mult 9 d ^^^
        (gf_mult 14 a ^^^ gf_mult 14 (gf_mult 2 b) ^^^ gf_mult 14 (gf_mult 3 c) ^^^ gf_mult 14 d) ^^^
        (gf_mult 11 a ^^^ gf_mult 11 b ^^^ gf_mult 11 (gf_mult 2 c) ^^^ gf_mult 11 (gf_mult 3 d)) ^^^
        (gf_mult 13 (gf_mult 3 a) ^^^ gf_mult 13 b ^^^ gf_mult 13 c ^^^ gf_mult 13 (gf_mult 2 d))
      = (gf_mult 14 a ^^^ gf_mult 11 a ^^^ gf_mult 13 (gf_mult 3 a) ^^^ gf_mult 9 (gf_mult 2 a)) ^^^
        ((gf_mult 14 (gf_mult 2 b) ^^^ gf_mult 11 b ^^^ gf_mult 13 b ^^^ gf_mult 9 (gf_mult 3 b)) ^^^
         ((gf_mult 14 (gf_mult 3 c) ^^^ gf_mult 11 (gf_mult 2 c) ^^^ gf_mult 13 c ^^^ gf_mult 9 c) ^^^
          (gf_mult 14 d ^^^ gf_mult 11 (gf_mult 3 d) ^^^ gf_mult 13 (gf_mult 2 d) ^^^ gf_mult 9 d))) := by
        simp [Nat.xor_assoc, Nat.xor_comm, xor_left_comm]
    _ = b := by rw [hA, hB, hC, hD]; simp

theorem comp2 {a b c d : Nat} (ha : a < 256) (hb : b < 256) (hc : c < 256) (hd : d < 256) :
    gf_mult 13 (gf_mult 2 a ^^^ gf_mult 3 b ^^^ c ^^^ d) ^^^
    gf_mult 9 (a ^^^ gf_mult 2 b ^^^ gf_mult 3 c ^^^ d) ^^^
    gf_mult 14 (a ^^^ b ^^^ gf_mult 2 c ^^^ gf_mult 3 d) ^^^
    gf_mult 11 (gf_mult 3 a ^^^ b ^^^ c ^^^ gf_mult 2 d) = c := by
  have h2a := gf_mult_lt 2 a (by norm_num)
  have h3a := gf_mult_lt 3 a (by norm_num)
  have h2b := gf_mult_lt 2 b (by norm_num)
  have h3b := gf_mult_lt 3 b (by norm_num)
  have h2c := gf_mult_lt 2 c (by norm_num)
  have h3c := gf_mult_lt 3 c (by norm_num)
  have h2d := gf_mult_lt 2 d (by norm_num)
  have h3d := gf_mult_lt 3 d (by norm_num)
  rw [gf_linear4 13 h2a h3b hc hd, gf_linear4 9 ha h2b h3c hd,
      gf_linear4 14 ha hb h2c h3d, gf_linear4 11 h3a hb hc h2d]
  have hA := mix_z2 ha
  have hB := mix_z3 hb
  have hC := mix_id hc
  have hD := mix_z1 hd
  calc gf_mult 13 (gf_mult 2 a) ^^^ gf_mult 13 (gf_mult 3 b) ^^^ gf_mult 13 c ^^^ gf_mult 13 d ^^^
        (gf_mult 9 a ^^^ gf_mult 9 (gf_mult 2 b) ^^^ gf_mult 9 (gf_mult 3 c) ^^^ gf_mult 9 d) ^^^
        (gf_mult 14 a ^^^ gf_mult 14 b ^^^ gf_mult 14 (gf_mult 2 c) ^^^ gf_mult 14 (gf_mult 3 d)) ^^^
        (gf_mult 11 (gf_mult 3 a) ^^^ gf_mult 11 b ^^^ gf_mult 11 c ^^^ gf_mult 11 (gf_mult 2 d))
      = (gf_mult 14 a ^^^ gf_mult 11 (gf_mult 3 a) ^^^ gf_mult 13 (gf_mult 2 a) ^^^ gf_mult 9 a) ^^^
        ((gf_mult 14 b ^^^ gf_mult 11 b ^^^ gf_mult 13 (gf_mult 3 b) ^^^ gf_mult 9 (gf_mult 2 b)) ^^^
         ((gf_mult 14 (gf_mult 2 c) ^^^ gf_mult 11 c ^^^ gf_mult 13 c ^^^ gf_mult 9 (gf_mult 3 c)) ^^^
          (gf_mult 14 (gf_mult 3 d) ^^^ gf_mult 11 (gf_mult 2 d) ^^^ gf_mult 13 d ^^^ gf_mult 9 d))) := by
        simp [Nat.xor_assoc, Nat.xor_comm, xor_left_comm]
    _ = c := by rw [hA, hB, hC, hD]; simp

theorem comp3 {a b c d : Nat} (ha : a < 256) (hb : b < 256) (hc : c < 256) (hd : d < 256) :
    gf_mult 11 (gf_mult 2 a ^^^ gf_mult 3 b ^^^ c ^^^ d) ^^^
    gf_mult 13 (a ^^^ gf_mult 2 b ^^^ gf_mult 3 c ^^^ d) ^^^
    gf_mult 9 (a ^^^ b ^^^ gf_mult 2 c ^^^ gf_mult 3 d) ^^^
    gf_mult 14 (gf_mult 3 a ^^^ b ^^^ c ^^^ gf_mult 2 d) = d := by
  have h2a := gf_mult_lt 2 a (by norm_num)
  have h3a := gf_mult_lt 3 a (by norm_num)
  have h2b := gf_mult_lt 2 b (by norm_num)
  have h3b := gf_mult_lt 3 b (by norm_num)
  have h2c := gf_mult_lt 2 c (by norm_num)
  have h3c := gf_mult_lt 3 c (by norm_num)
  have h2d := gf_mult_lt 2 d (by norm_num)
  have h3d := gf_mult_lt 3 d (by norm_num)
  rw [gf_linear4 11 h2a h3b hc hd, gf_linear4 13 ha h2b h3c hd,
      gf_linear4 9 ha hb h2c h3d, gf_linear4 14 h3a hb hc h2d]
  have hA := mix_z1 ha
  have hB := mix_z2 hb
  have hC := mix_z3 hc
  have hD := mix_id hd
  calc gf_mult 11 (gf_mult 2 a) ^^^ gf_mult 11 (gf_mult 3 b) ^^^ gf_mult 11 c ^^^ gf_mult 11 d ^^^
        (gf_mult 13 a ^^^ gf_mult 13 (gf_mult 2 b) ^^^ gf_mult 13 (gf_mult 3 c) ^^^ gf_mult 13 d) ^^^
        (gf_mult 9 a ^^^ gf_mult 9 b ^^^ gf_mult 9 (gf_mult 2 c) ^^^ gf_mult 9 (gf_mult 3 d)) ^^^
        (gf_mult 14 (gf_mult 3 a) ^^^ gf_mult 14 b ^^^ gf_mult 14 c ^^^ gf_mult 14 (gf_mult 2 d))
      = (gf_mult 14 (gf_mult 3 a) ^^^ gf_mult 11 (gf_mult 2 a) ^^^ gf_mult 13 a ^^^ gf_mult 9 a) ^^^
        ((gf_mult 14 b ^^^ gf_mult 11 (gf_mult 3 b) ^^^ gf_mult 13 (gf_mult 2 b) ^^^ gf_mult 9 b) ^^^
         ((gf_mult 14 c ^^^ gf_mult 11 c ^^^ gf_mult 13 (gf_mult 3 c) ^^^ gf_mult 9 (gf_mult 2 c)) ^^^
          (gf_mult 14 (gf_mult 2 d) ^^^ gf_mult 11 d ^^^ gf_mult 13 d ^^^ gf_mult 9 (gf_mult 3 d)))) := by
        simp [Nat.xor_assoc, Nat.xor_comm, xor_left_comm]
    _ = d := by rw [hA, hB, hC, hD]; simp

theorem inv_mix_mix_col {a b c d : Nat} (ha : a < 256) (hb : b < 256) (hc : c < 256)
    (hd : d < 256) :
    inv_mix_single_column (mix_single_column [a, b, c, d]) = [a, b, c, d] := by
  simp only [mix_single_column, inv_mix_single_column, List.cons.injEq, and_true]
  exact ⟨comp0 ha hb hc hd, comp1 ha hb hc hd, comp2 ha hb hc hd, comp3 ha hb hc hd⟩

theorem inv_mix_mix (s : State) (hs : GoodState s) :
    inv_mix_columns (mix_columns s) = s := by
  obtain ⟨a0, a1, a2, a3, b0, b1, b2, b3, c0, c1, c2, c3, d0, d1, d2, d3, he,
    ha0, ha1, ha2, ha3, hb0, hb1, hb2, hb3, hc0, hc1, hc2, hc3, hd0, hd1, hd2, hd3⟩ :=
    state_destruct s hs
  subst he
  have h0 := inv_mix_mix_col ha0 hb0 hc0 hd0
  have h1 := inv_mix_mix_col ha1 hb1 hc1 hd1
  have h2 := inv_mix_mix_col ha2 hb2 hc2 hd2
  have h3 := inv_mix_mix_col ha3 hb3 hc3 hd3
  have hbridge : inv_mix_columns (mix_columns
      [[a0, a1, a2, a3], [b0, b1, b2, b3], [c0, c1, c2, c3], [d0, d1, d2, d3]]) =
      [[(inv_mix_single_column (mix_single_column [a0, b0, c0, d0])).getD 0 0,
        (inv_mix_single_column (mix_single_column [a1, b1, c1, d1])).getD 0 0,
        (inv_mix_single_column (mix_single_column [a2, b2, c2, d2])).getD 0 0,
        (inv_mix_single_column (mix_single_column [a3, b3, c3, d3])).getD 0 0],
       [(inv_mix_single_column (mix_single_column [a0, b0, c0, d0])).getD 1 0,
        (inv_mix_single_column (mix_single_column [a1, b1, c1, d1])).getD 1 0,
        (inv_mix_single_column (mix_single_column [a2, b2, c2, d2])).getD 1 0,
        (inv_mix_single_column (mix_single_column [a3, b3, c3, d3])).getD 1 0],
       [(inv_mix_single_column (mix_single_column [a0, b0, c0, d0])).getD 2 0,
        (inv_mix_single_column (mix_single_column [a1, b1, c1, d1])).getD 2 0,
        (inv_mix_single_column (mix_single_column [a2, b2, c2, d2])).getD 2 0,
        (inv_mix_single_column (mix_single_column [a3, b3, c3, d3])).getD 2 0],
       [(inv_mix_single_column (mix_single_column [a0, b0, c0, d0])).getD 3 0,
        (inv_mix_single_column (mix_single_column [a1, b1, c1, d1])).getD 3 0,
        (inv_mix_single_column (mix_single_column [a2, b2, c2, d2])).getD 3 0,
        (inv_mix_single_column (mix_single_column [a3, b3, c3, d3])).getD 3 0]] := rfl
  rw [hbridge, h0, h1, h2, h3]
  rfl


/-! ## Shape and byte-range preservation -/

theorem good_sub (s : State) (hs : GoodState s) : GoodState (sub_bytes s) := by
  obtain ⟨a0, a1, a2, a3, b0, b1, b2, b3, c0, c1, c2, c3, d0, d1, d2, d3, he, _⟩ :=
    state_destruct s hs
  subst he
  simp [GoodState, sub_bytes, sbox_getElem_lt]

theorem good_inv_sub (s : State) (hs : GoodState s) : GoodState (inv_sub_bytes s) := by
  obtain ⟨a0, a1, a2, a3, b0, b1, b2, b3, c0, c1, c2, c3, d0, d1, d2, d3, he, _⟩ :=
    state_destruct s hs
  subst he
  simp [GoodState, inv_sub_bytes, inv_sbox_getElem_lt]

theorem good_shift (s : State) (hs : GoodState s) : GoodState (shift_rows s) := by
  obtain ⟨a0, a1, a2, a3, b0, b1, b2, b3, c0, c1, c2, c3, d0, d1, d2, d3, he, hbd⟩ :=
    state_destruct s hs
  subst he
  simp only [GoodState, shift_rows]
  simp
  omega

theorem good_inv_shift (s : State) (hs : GoodState s) : GoodState (inv_shift_rows s) := by
  obtain ⟨a0, a1, a2, a3, b0, b1, b2, b3, c0, c1, c2, c3, d0, d1, d2, d3, he, hbd⟩ :=
    state_destruct s hs
  subst he
  simp only [GoodState, inv_shift_rows]
  simp
  omega

theorem good_ark (s k : State) (hs : GoodState s) (hk : GoodState k) :
    GoodState (add_round_key s k) := by
  obtain ⟨a0, a1, a2, a3, b0, b1, b2, b3, c0, c1, c2, c3, d0, d1, d2, d3, he,
    ha0, ha1, ha2, ha3, hb0, hb1, hb2, hb3, hc0, hc1, hc2, hc3, hd0, hd1, hd2, hd3⟩ :=
    state_destruct s hs
  obtain ⟨k0, k1, k2, k3, k4, k5, k6, k7, k8, k9, k10, k11, k12, k13, k14, k15, hke,
    hk0, hk1, hk2, hk3, hk4, hk5, hk6, hk7, hk8, hk9, hk10, hk11, hk12, hk13, hk14, hk15⟩ :=
    state_destruct k hk
  subst he; subst hke
  show GoodState
    [[a0 ^^^ k0, a1 ^^^ k1, a2 ^^^ k2, a3 ^^^ k3],
     [b0 ^^^ k4, b1 ^^^ k5, b2 ^^^ k6, b3 ^^^ k7],
     [c0 ^^^ k8, c1 ^^^ k9, c2 ^^^ k10, c3 ^^^ k11],
     [d0 ^^^ k12, d1 ^^^ k13, d2 ^^^ k14, d3 ^^^ k15]]
  simp [GoodState]
  repeat' apply And.intro
  all_goals exact xor_lt_256 (by assumption) (by assumption)

theorem good_mix (s : State) (hs : GoodState s) : GoodState (mix_columns s) := by
  obtain ⟨a0, a1, a2, a3, b0, b1, b2, b3, c0, c1, c2, c3, d0, d1, d2, d3, he,
    ha0, ha1, ha2, ha3, hb0, hb1, hb2, hb3, hc0, hc1, hc2, hc3, hd0, hd1, hd2, hd3⟩ :=
    state_destruct s hs
  subst he
  show GoodState
    [
     [gf_mult 2 a0 ^^^ gf_mult 3 b0 ^^^ c0 ^^^ d0,
      gf_mult 2 a1 ^^^ gf_mult 3 b1 ^^^ c1 ^^^ d1,
      gf_mult 2 a2 ^^^ gf_mult 3 b2 ^^^ c2 ^^^ d2,
      gf_mult 2 a3 ^^^ gf_mult 3 b3 ^^^ c3 ^^^ d3],
     [a0 ^^^ gf_mult 2 b0 ^^^ gf_mult 3 c0 ^^^ d0,
      a1 ^^^ gf_mult 2 b1 ^^^ gf_mult 3 c1 ^^^ d1,
      a2 ^^^ gf_mult 2 b2 ^^^ gf_mult 3 c2 ^^^ d2,
      a3 ^^^ gf_mult 2 b3 ^^^ gf_mult 3 c3 ^^^ d3],
     [a0 ^^^ b0 ^^^ gf_mult 2 c0 ^^^ gf_mult 3 d0,
      a1 ^^^ b1 ^^^ gf_mult 2 c1 ^^^ gf_mult 3 d1,
      a2 ^^^ b2 ^^^ gf_mult 2 c2 ^^^ gf_mult 3 d2,
      a3 ^^^ b3 ^^^ gf_mult 2 c3 ^^^ gf_mult 3 d3],
     [gf_mult 3 a0 ^^^ b0 ^^^ c0 ^^^ gf_mult 2 d0,
      gf_mult 3 a1 ^^^ b1 ^^^ c1 ^^^ gf_mult 2 d1,
      gf_mult 3 a2 ^^^ b2 ^^^ c2 ^^^ gf_mult 2 d2,
      gf_mult 3 a3 ^^^ b3 ^^^ c3 ^^^ gf_mult 2 d3]]
  simp [GoodState]
  repeat' apply And.intro
  all_goals
    repeat' first
      | assumption
      | exact gf_mult_lt _ _ (by norm_num)
      | apply xor_lt_256

theorem good_inv_mix (s : State) (hs : GoodState s) : GoodState (inv_mix_columns s) := by
  obtain ⟨a0, a1, a2, a3, b0, b1, b2, b3, c0, c1, c2, c3, d0, d1, d2, d3, he,
    ha0, ha1, ha2, ha3, hb0, hb1, hb2, hb3, hc0, hc1, hc2, hc3, hd0, hd1, hd2, hd3⟩ :=
    state_destruct s hs
  subst he
  show GoodState
    [
     [gf_mult 14 a0 ^^^ gf_mult 11 b0 ^^^ gf_mult 13 c0 ^^^ gf_mult 9 d0,
      gf_mult 14 a1 ^^^ gf_mult 11 b1 ^^^ gf_mult 13 c1 ^^^ gf_mult 9 d1,
      gf_mult 14 a2 ^^^ gf_mult 11 b2 ^^^ gf_mult 13 c2 ^^^ gf_mult 9 d2,
      gf_mult 14 a3 ^^^ gf_mult 11 b3 ^^^ gf_mult 13 c3 ^^^ gf_mult 9 d3],
     [gf_mult 9 a0 ^^^ gf_mult 14 b0 ^^^ gf_mult 11 c0 ^^^ gf_mult 13 d0,
      gf_mult 9 a1 ^^^ gf_mult 14 b1 ^^^ gf_mult 11 c1 ^^^ gf_mult 13 d1,
      gf_mult 9 a2 ^^^ gf_mult 14 b2 ^^^ gf_mult 11 c2 ^^^ gf_mult 13 d2,
      gf_mult 9 a3 ^^^ gf_mult 14 b3 ^^^ gf_mult 11 c3 ^^^ gf_mult 13 d3],
     [gf_mult 13 a0 ^^^ gf_mult 9 b0 ^^^ gf_mult 14 c0 ^^^ gf_mult 11 d0,
      gf_mult 13 a1 ^^^ gf_mult 9 b1 ^^^ gf_mult 14 c1 ^^^ gf_mult 11 d1,
      gf_mult 13 a2 ^^^ gf_mult 9 b2 ^^^ gf_mult 14 c2 ^^^ gf_mult 11 d2,
      gf_mult 13 a3 ^^^ gf_mult 9 b3 ^^^ gf_mult 14 c3 ^^^ gf_mult 11 d3],
     [gf_mult 11 a0 ^^^ gf_mult 13 b0 ^^^ gf_mult 9 c0 ^^^ gf_mult 14 d0,
      gf_mult 11 a1 ^^^ gf_mult 13 b1 ^^^ gf_mult 9 c1 ^^^ gf_mult 14 d1,
      gf_mult 11 a2 ^^^ gf_mult 13 b2 ^^^ gf_mult 9 c2 ^^^ gf_mult 14 d2,
      gf_mult 11 a3 ^^^ gf_mult 13 b3 ^^^ gf_mult 9 c3 ^^^ gf_mult 14 d3]]
  simp [GoodState]
  repeat' apply And.intro
  all_goals
    repeat' first
      | assumption
      | exact gf_mult_lt _ _ (by norm_num)
      | apply xor_lt_256

/-! ## Byte and state conversions -/

theorem bytes16_destruct (l : List Nat) (hlen : l.length = 16) (hmem : ∀ b ∈ l, b < 256) :
    ∃ x0 x1 x2 x3 x4 x5 x6 x7 x8 x9 x10 x11 x12 x13 x14 x15,
      l = [x0, x1, x2, x3, x4, x5, x6, x7, x8, x9, x10, x11, x12, x13, x14, x15] ∧
      x0 < 256 ∧ x1 < 256 ∧ x2 < 256 ∧ x3 < 256 ∧ x4 < 256 ∧ x5 < 256 ∧ x6 < 256 ∧
      x7 < 256 ∧ x8 < 256 ∧ x9 < 256 ∧ x10 < 256 ∧ x11 < 256 ∧ x12 < 256 ∧
      x13 < 256 ∧ x14 < 256 ∧ x15 < 256 := by
  match l, hlen with
  | [x0, x1, x2, x3, x4, x5, x6, x7, x8, x9, x10, x11, x12, x13, x14, x15], _ =>
    refine ⟨x0, x1, x2, x3, x4, x5, x6, x7, x8, x9, x10, x11, x12, x13, x14, x15, rfl,
      ?_, ?_, ?_, ?_, ?_, ?_, ?_, ?_, ?_, ?_, ?_, ?_, ?_, ?_, ?_, ?_⟩ <;>
      exact hmem _ (by simp)

theorem bytes_to_state_sixteen (x0 x1 x2 x3 x4 x5 x6 x7 x8 x9 x10 x11 x12 x13 x14 x15 : Nat) :
    bytes_to_state [x0, x1, x2, x3, x4, x5, x6, x7, x8, x9, x10, x11, x12, x13, x14, x15] =
      some [[x0, x4, x8, x12], [x1, x5, x9, x13], [x2, x6, x10, x14], [x3, x7, x11, x15]] := rfl

theorem state_to_bytes_of_state (a0 a1 a2 a3 b0 b1 b2 b3 c0 c1 c2 c3 d0 d1 d2 d3 : Nat) :
    state_to_bytes [[a0, a1, a2, a3], [b0, b1, b2, b3], [c0, c1, c2, c3], [d0, d1, d2, d3]] =
      [a0, b0, c0, d0, a1, b1, c1, d1, a2, b2, c2, d2, a3, b3, c3, d3] := rfl

theorem bytes_to_state_roundtrip (st : State) (hst : GoodState st) :
    bytes_to_state (state_to_bytes st) = some st := by
  obtain ⟨a0, a1, a2, a3, b0, b1, b2, b3, c0, c1, c2, c3, d0, d1, d2, d3, he, _⟩ :=
    state_destruct st hst
  subst he
  rfl

theorem state_to_bytes_good (st : State) (hst : GoodState st) :
    (state_to_bytes st).length = 16 ∧ GoodBytes (state_to_bytes st) := by
  obtain ⟨a0, a1, a2, a3, b0, b1, b2, b3, c0, c1, c2, c3, d0, d1, d2, d3, he, hbd⟩ :=
    state_destruct st hst
  subst he
  rw [state_to_bytes_of_state]
  refine ⟨rfl, ?_⟩
  intro b hb
  simp at hb
  rcases hb with h | h | h | h | h | h | h | h | h | h | h | h | h | h | h | h <;>
    subst h <;> tauto

/-! ## Key expansion facts -/

theorem zipWith_xor_lt (w1 w2 : List Nat) (h1 : ∀ b ∈ w1, b < 256) (h2 : ∀ b ∈ w2, b < 256) :
    ∀ b ∈ List.zipWith (· ^^^ ·) w1 w2, b < 256 := by
  induction w1 generalizing w2 with
  | nil => simp
  | cons x xs ih =>
    cases w2 with
    | nil => simp
    | cons y ys =>
      intro b hb
      simp [List.zipWith] at hb
      rcases hb with h | h
      · subst h
        exact xor_lt_256 (h1 x (by simp)) (h2 y (by simp))
      · exact ih ys (fun v hv => h1 v (by simp [hv])) (fun v hv => h2 v (by simp [hv])) b h

theorem word_getD_lt (ws : List (List Nat)) (h : ∀ w ∈ ws, ∀ b ∈ w, b < 256) (j : Nat) :
    ∀ b ∈ ws.getD j [], b < 256 := by
  rcases Nat.lt_or_ge j ws.length with hl | hl
  · rw [List.getD_eq_getElem ws [] hl]
    exact h _ (List.getElem_mem hl)
  · rw [List.getD_eq_default ws [] hl]
    simp

theorem sub_word_lt (w : List Nat) : ∀ b ∈ sub_word w, b < 256 := by
  intro b hb
  simp [sub_word, List.mem_map] at hb
  obtain ⟨x, _, hbx⟩ := hb
  subst hbx
  exact getElem?_lt_256 S_BOX (by decide) x

theorem rcon_word_lt (i : Nat) : ∀ b ∈ [RCON.getD i 0, 0, 0, 0], b < 256 := by
  intro b hb
  simp at hb
  rcases hb with h | h
  · subst h
    exact getElem?_lt_256 RCON (by decide) i
  · subst h
    norm_num

theorem expand_step_good :
    ∀ (idxs : List Nat) (ws : List (List Nat)), (∀ w ∈ ws, ∀ b ∈ w, b < 256) →
    ∀ w ∈ idxs.foldl (fun ws i =>
      let temp := ws.getD (i - 1) []
      let temp := if i % 4 = 0 then
          xor_words (sub_word (rot_word temp)) [RCON.getD (i / 4) 0, 0, 0, 0]
        else temp
      ws ++ [xor_words (ws.getD (i - 4) []) temp]) ws,
    ∀ b ∈ w, b < 256 := by
  intro idxs
  induction idxs with
  | nil => intro ws h; simpa using h
  | cons i is ih =>
    intro ws h
    rw [List.foldl_cons]
    apply ih
    intro w hw
    rcases List.mem_append.mp hw with h1 | h2
    · exact h w h1
    · have hw2 : w = xor_words (ws.getD (i - 4) [])
          (if i % 4 = 0 then
            xor_words (sub_word (rot_word (ws.getD (i - 1) []))) [RCON.getD (i / 4) 0, 0, 0, 0]
          else ws.getD (i - 1) []) := by
        simpa using h2
      subst hw2
      apply zipWith_xor_lt _ _ (word_getD_lt ws h (i - 4))
      split
      · exact zipWith_xor_lt _ _ (sub_word_lt _) (rcon_word_lt _)
      · exact word_getD_lt ws h (i - 1)

theorem expandWords_good (key : List Nat) (hk : GoodBytes key) :
    ∀ w ∈ expandWords key, ∀ b ∈ w, b < 256 := by
  unfold expandWords
  apply expand_step_good
  intro w hw b hb
  simp [List.mem_map] at hw
  obtain ⟨j, _, hwj⟩ := hw
  subst hwj
  simp [List.mem_map] at hb
  obtain ⟨t, _, hbt⟩ := hb
  subst hbt
  exact getElem?_lt_256 key hk _

theorem key_expansion_ok (key : List Nat) (hlen : key.length = 16) (hk : GoodBytes key) :
    ∃ rks, key_expansion key = .ok rks ∧ rks.length = 11 ∧
      ∀ i, i < 11 → GoodState (rks.getD i []) := by
  refine ⟨_, by rw [key_expansion, if_neg (by omega)], by simp, ?_⟩
  intro i hi
  rw [List.getD_eq_getElem _ [] (by simpa using hi)]
  simp only [List.getElem_map]
  constructor
  · simp
  · intro r hr
    simp only [List.mem_map] at hr
    obtain ⟨row, _, hrow⟩ := hr
    subst hrow
    constructor
    · simp
    · intro b hb
      simp only [List.mem_map] at hb
      obtain ⟨col, _, hbc⟩ := hb
      subst hbc
      exact getD_lt_256 _ (word_getD_lt _ (expandWords_good key hk) _) row

/-! ## Block pipeline lemmas -/

theorem foldl_encR_good (ks : List State) :
    ∀ s, GoodState s → (∀ k ∈ ks, GoodState k) →
    GoodState (ks.foldl (fun st k =>
      add_round_key (mix_columns (shift_rows (sub_bytes st))) k) s) := by
  induction ks with
  | nil => intro s hs _; simpa using hs
  | cons k ks ih =>
    intro s hs hks
    rw [List.foldl_cons]
    exact ih _ (good_ark _ _ (good_mix _ (good_shift _ (good_sub _ hs))) (hks k (by simp)))
      (fun k' hk' => hks k' (by simp [hk']))

theorem rounds_cancel (ks : List State) :
    ∀ s, GoodState s → (∀ k ∈ ks, GoodState k) →
    ks.reverse.foldl (fun st k =>
        inv_mix_columns (add_round_key (inv_sub_bytes (inv_shift_rows st)) k))
      (shift_rows (sub_bytes (ks.foldl (fun st k =>
        add_round_key (mix_columns (shift_rows (sub_bytes st))) k) s)))
    = shift_rows (sub_bytes s) := by
  induction ks with
  | nil => intro s hs _; simp
  | cons k ks ih =>
    intro s hs hks
    have hk : GoodState k := hks k (by simp)
    have hks' : ∀ k' ∈ ks, GoodState k' := fun k' hk' => hks k' (by simp [hk'])
    have hY : GoodState (add_round_key (mix_columns (shift_rows (sub_bytes s))) k) :=
      good_ark _ _ (good_mix _ (good_shift _ (good_sub _ hs))) hk
    rw [List.foldl_cons, List.reverse_cons, List.foldl_append, ih _ hY hks']
    rw [List.foldl_cons, List.foldl_nil]
    rw [inv_shift_shift _ (good_sub _ hY), inv_sub_sub _ hY,
        ark_ark _ _ (good_mix _ (good_shift _ (good_sub _ hs))) hk,
        inv_mix_mix _ (good_shift _ (good_sub _ hs))]

theorem ks19_good (rks : List State) (hgood : ∀ i, i < 11 → GoodState (rks.getD i [])) :
    ∀ k ∈ (List.range' 1 9).map (fun r => rks.getD r []), GoodState k := by
  intro k hk
  simp only [List.mem_map] at hk
  obtain ⟨r, hr, hkr⟩ := hk
  subst hkr
  have := List.mem_range'_1.mp hr
  exact hgood r (by omega)

theorem encrypt_block_roundtrip (B K : List Nat) (hB : B.length = 16) (hBb : GoodBytes B)
    (hK : K.length = 16) (hKb : GoodBytes K) :
    ∃ C, encrypt_block B K = .ok C ∧ C.length = 16 ∧ GoodBytes C ∧
      decrypt_block C K = .ok B := by
  obtain ⟨rks, hok, hlen11, hgood⟩ := key_expansion_ok K hK hKb
  obtain ⟨x0, x1, x2, x3, x4, x5, x6, x7, x8, x9, x10, x11, x12, x13, x14, x15, heB,
    h0, h1, h2, h3, h4, h5, h6, h7, h8, h9, h10, h11, h12, h13, h14, h15⟩ :=
    bytes16_destruct B hB hBb
  subst heB
  have hgst0 : GoodState [[x0, x4, x8, x12], [x1, x5, x9, x13], [x2, x6, x10, x14], [x3, x7, x11, x15]] := by
    simp [GoodState]
    omega
  have hb2s : bytes_to_state [x0, x1, x2, x3, x4, x5, x6, x7, x8, x9, x10, x11, x12,
      x13, x14, x15] = some [[x0, x4, x8, x12], [x1, x5, x9, x13], [x2, x6, x10, x14], [x3, x7, x11, x15]] := rfl
  have hks19 := ks19_good rks hgood
  have hst1 : GoodState (add_round_key [[x0, x4, x8, x12], [x1, x5, x9, x13], [x2, x6, x10, x14], [x3, x7, x11, x15]] (rks.getD 0 [])) := good_ark _ _ hgst0 (hgood 0 (by omega))
  have hfold : ((List.range' 1 9).foldl (fun st round_num => add_round_key (mix_columns (shift_rows (sub_bytes st))) (rks.getD round_num [])) (add_round_key [[x0, x4, x8, x12], [x1, x5, x9, x13], [x2, x6, x10, x14], [x3, x7, x11, x15]] (rks.getD 0 []))) = (((List.range' 1 9).map (fun r => rks.getD r [])).foldl (fun st k => add_round_key (mix_columns (shift_rows (sub_bytes st))) k) (add_round_key [[x0, x4, x8, x12], [x1, x5, x9, x13], [x2, x6, x10, x14], [x3, x7, x11, x15]] (rks.getD 0 []))) :=
    (List.foldl_map (fun r => rks.getD r [])
      (fun st k => add_round_key (mix_columns (shift_rows (sub_bytes st))) k)
      (List.range' 1 9) (add_round_key [[x0, x4, x8, x12], [x1, x5, x9, x13], [x2, x6, x10, x14], [x3, x7, x11, x15]] (rks.getD 0 []))).symm
  have hst2 : GoodState ((List.range' 1 9).foldl (fun st round_num => add_round_key (mix_columns (shift_rows (sub_bytes st))) (rks.getD round_num [])) (add_round_key [[x0, x4, x8, x12], [x1, x5, x9, x13], [x2, x6, x10, x14], [x3, x7, x11, x15]] (rks.getD 0 []))) := by
    rw [hfold]
    exact foldl_encR_good _ _ hst1 hks19
  have hst3 : GoodState (add_round_key (shift_rows (sub_bytes ((List.range' 1 9).foldl (fun st round_num => add_round_key (mix_columns (shift_rows (sub_bytes st))) (rks.getD round_num [])) (add_round_key [[x0, x4, x8, x12], [x1, x5, x9, x13], [x2, x6, x10, x14], [x3, x7, x11, x15]] (rks.getD 0 []))))) (rks.getD 10 [])) :=
    good_ark _ _ (good_shift _ (good_sub _ hst2)) (hgood 10 (by omega))
  have henc : encrypt_block [x0, x1, x2, x3, x4, x5, x6, x7, x8, x9, x10, x11, x12,
      x13, x14, x15] K = .ok (state_to_bytes (add_round_key (shift_rows (sub_bytes ((List.range' 1 9).foldl (fun st round_num => add_round_key (mix_columns (shift_rows (sub_bytes st))) (rks.getD round_num [])) (add_round_key [[x0, x4, x8, x12], [x1, x5, x9, x13], [x2, x6, x10, x14], [x3, x7, x11, x15]] (rks.getD 0 []))))) (rks.getD 10 []))) := by
    simp only [encrypt_block, hok, hb2s]
    rfl
  refine ⟨_, henc, (state_to_bytes_good _ hst3).1, (state_to_bytes_good _ hst3).2, ?_⟩
  simp only [decrypt_block, hok, bytes_to_state_roundtrip _ hst3]
  show Except.ok _ = Except.ok _
  rw [ark_ark _ _ (good_shift _ (good_sub _ hst2)) (hgood 10 (by omega))]
  rw [hfold]
  have hdfold : ((List.range' 1 9).reverse.foldl (fun st round_num => inv_mix_columns (add_round_key (inv_sub_bytes (inv_shift_rows st)) (rks.getD round_num []))) (shift_rows (sub_bytes (((List.range' 1 9).map (fun r => rks.getD r [])).foldl (fun st k => add_round_key (mix_columns (shift_rows (sub_bytes st))) k) (add_round_key [[x0, x4, x8, x12], [x1, x5, x9, x13], [x2, x6, x10, x14], [x3, x7, x11, x15]] (rks.getD 0 [])))))) = (((List.range' 1 9).map (fun r => rks.getD r [])).reverse.foldl (fun st k => inv_mix_columns (add_round_key (inv_sub_bytes (inv_shift_rows st)) k)) (shift_rows (sub_bytes (((List.range' 1 9).map (fun r => rks.getD r [])).foldl (fun st k => add_round_key (mix_columns (shift_rows (sub_bytes st))) k) (add_round_key [[x0, x4, x8, x12], [x1, x5, x9, x13], [x2, x6, x10, x14], [x3, x7, x11, x15]] (rks.getD 0 [])))))) := by
    rw [← List.map_reverse]
    exact (List.foldl_map (fun r => rks.getD r [])
      (fun st k => inv_mix_columns (add_round_key (inv_sub_bytes (inv_shift_rows st)) k))
      (List.range' 1 9).reverse (shift_rows (sub_bytes (((List.range' 1 9).map (fun r => rks.getD r [])).foldl (fun st k => add_round_key (mix_columns (shift_rows (sub_bytes st))) k) (add_round_key [[x0, x4, x8, x12], [x1, x5, x9, x13], [x2, x6, x10, x14], [x3, x7, x11, x15]] (rks.getD 0 [])))))).symm
  rw [hdfold]
  have hcancel := rounds_cancel ((List.range' 1 9).map (fun r => rks.getD r [])) (add_round_key [[x0, x4, x8, x12], [x1, x5, x9, x13], [x2, x6, x10, x14], [x3, x7, x11, x15]] (rks.getD 0 [])) hst1 hks19
  rw [hcancel]
  rw [inv_shift_shift _ (good_sub _ hst1), inv_sub_sub _ hst1,
      ark_ark _ _ hgst0 (hgood 0 (by omega))]
  rfl


/-! ## Wrapper lemmas -/

theorem foldl_decR_good (ks : List State) :
    ∀ s, GoodState s → (∀ k ∈ ks, GoodState k) →
    GoodState (ks.foldl (fun st k =>
      inv_mix_columns (add_round_key (inv_sub_bytes (inv_shift_rows st)) k)) s) := by
  induction ks with
  | nil => intro s hs _; simpa using hs
  | cons k ks ih =>
    intro s hs hks
    rw [List.foldl_cons]
    exact ih _ (good_inv_mix _ (good_ark _ _ (good_inv_sub _ (good_inv_shift _ hs))
      (hks k (by simp)))) (fun k' hk' => hks k' (by simp [hk']))

theorem decrypt_block_total (C K : List Nat) (hC : C.length = 16) (hCb : GoodBytes C)
    (hK : K.length = 16) (hKb : GoodBytes K) :
    ∃ P, decrypt_block C K = .ok P ∧ P.length = 16 ∧ GoodBytes P := by
  obtain ⟨rks, hok, hlen11, hgood⟩ := key_expansion_ok K hK hKb
  obtain ⟨x0, x1, x2, x3, x4, x5, x6, x7, x8, x9, x10, x11, x12, x13, x14, x15, heC,
    h0, h1, h2, h3, h4, h5, h6, h7, h8, h9, h10, h11, h12, h13, h14, h15⟩ :=
    bytes16_destruct C hC hCb
  subst heC
  have hgst0 : GoodState [[x0, x4, x8, x12], [x1, x5, x9, x13], [x2, x6, x10, x14],
      [x3, x7, x11, x15]] := by
    simp [GoodState]
    omega
  have hb2s : bytes_to_state [x0, x1, x2, x3, x4, x5, x6, x7, x8, x9, x10, x11, x12,
      x13, x14, x15] = some [[x0, x4, x8, x12], [x1, x5, x9, x13], [x2, x6, x10, x14],
      [x3, x7, x11, x15]] := rfl
  have hks19r : ∀ k ∈ ((List.range' 1 9).map (fun r => rks.getD r [])).reverse,
      GoodState k := by
    intro k hk
    exact ks19_good rks hgood k (List.mem_reverse.mp hk)
  have hst1 : GoodState (add_round_key [[x0, x4, x8, x12], [x1, x5, x9, x13],
      [x2, x6, x10, x14], [x3, x7, x11, x15]] (rks.getD 10 [])) :=
    good_ark _ _ hgst0 (hgood 10 (by omega))
  have hfold : ((List.range' 1 9).reverse.foldl (fun st round_num =>
      inv_mix_columns (add_round_key (inv_sub_bytes (inv_shift_rows st))
        (rks.getD round_num [])))
      (add_round_key [[x0, x4, x8, x12], [x1, x5, x9, x13], [x2, x6, x10, x14],
        [x3, x7, x11, x15]] (rks.getD 10 []))) =
      (((List.range' 1 9).map (fun r => rks.getD r [])).reverse.foldl (fun st k =>
        inv_mix_columns (add_round_key (inv_sub_bytes (inv_shift_rows st)) k))
      (add_round_key [[x0, x4, x8, x12], [x1, x5, x9, x13], [x2, x6, x10, x14],
        [x3, x7, x11, x15]] (rks.getD 10 []))) := by
    rw [← List.map_reverse]
    exact (List.foldl_map (fun r => rks.getD r []) (fun st k =>
      inv_mix_columns (add_round_key (inv_sub_bytes (inv_shift_rows st)) k))
      (List.range' 1 9).reverse _).symm
  have hst2 : GoodState ((List.range' 1 9).reverse.foldl (fun st round_num =>
      inv_mix_columns (add_round_key (inv_sub_bytes (inv_shift_rows st))
        (rks.getD round_num [])))
      (add_round_key [[x0, x4, x8, x12], [x1, x5, x9, x13], [x2, x6, x10, x14],
        [x3, x7, x11, x15]] (rks.getD 10 []))) := by
    rw [hfold]
    exact foldl_decR_good _ _ hst1 hks19r
  have hst3 : GoodState (add_round_key (inv_sub_bytes (inv_shift_rows
      ((List.range' 1 9).reverse.foldl (fun st round_num =>
        inv_mix_columns (add_round_key (inv_sub_bytes (inv_shift_rows st))
          (rks.getD round_num [])))
      (add_round_key [[x0, x4, x8, x12], [x1, x5, x9, x13], [x2, x6, x10, x14],
        [x3, x7, x11, x15]] (rks.getD 10 []))))) (rks.getD 0 [])) :=
    good_ark _ _ (good_inv_sub _ (good_inv_shift _ hst2)) (hgood 0 (by omega))
  refine ⟨_, ?_, (state_to_bytes_good _ hst3).1, (state_to_bytes_good _ hst3).2⟩
  simp only [decrypt_block, hok, hb2s]
  rfl


theorem foldlM_chunks (f : List Nat → Except AesError (List Nat)) (L : List Nat) :
    ∀ n s acc, s + 16 * n = L.length →
    (List.range' s n 16).foldlM (fun acc i => do
      let c ← f ((L.drop i).take 16)
      pure (acc ++ c)) acc
    = (do let cs ← chunksM f n (L.drop s); pure (acc ++ cs)) := by
  intro n
  induction n with
  | zero =>
    intro s acc _
    simp [chunksM]
    rfl
  | succ n ih =>
    intro s acc hs
    rw [List.range'_succ, List.foldlM_cons]
    cases hf : f ((L.drop s).take 16) with
    | error e =>
      simp [chunksM, hf, bind, Except.bind]
    | ok c =>
      have hih := ih (s + 16) (acc ++ c) (by omega)
      simp only [chunksM, hf, bind, Except.bind, pure, Except.pure, List.drop_drop] at hih ⊢
      rw [hih]
      cases chunksM f n (L.drop (s + 16)) <;> simp [List.append_assoc]

theorem chunks_roundtrip (K : List Nat) (hK : K.length = 16) (hKb : GoodBytes K) :
    ∀ n L, L.length = 16 * n → GoodBytes L →
    ∃ CT, chunksM (fun bl => encrypt_block bl K) n L = .ok CT ∧ CT.length = 16 * n ∧
      GoodBytes CT ∧ chunksM (fun bl => decrypt_block bl K) n CT = .ok L := by
  intro n
  induction n with
  | zero =>
    intro L hL _
    have : L = [] := List.length_eq_zero.mp (by omega)
    subst this
    exact ⟨[], rfl, by simp, by simp [GoodBytes], rfl⟩
  | succ n ih =>
    intro L hL hLb
    have hBlen : (L.take 16).length = 16 := by simp [List.length_take]; omega
    have hBb : GoodBytes (L.take 16) := fun b hb => hLb b (List.mem_of_mem_take hb)
    have hL'len : (L.drop 16).length = 16 * n := by simp [List.length_drop]; omega
    have hL'b : GoodBytes (L.drop 16) := fun b hb => hLb b (List.mem_of_mem_drop hb)
    obtain ⟨C, hC, hClen, hCb, hCdec⟩ :=
      encrypt_block_roundtrip (L.take 16) K hBlen hBb hK hKb
    obtain ⟨CT, hCT, hCTlen, hCTb, hCTdec⟩ := ih (L.drop 16) hL'len hL'b
    refine ⟨C ++ CT, ?_, by simp [hClen, hCTlen]; omega, ?_, ?_⟩
    · simp [chunksM, hC, hCT, bind, Except.bind]; rfl
    · intro b hb
      rcases List.mem_append.mp hb with h | h
      · exact hCb b h
      · exact hCTb b h
    · have htake : (C ++ CT).take 16 = C := by
        have := List.take_left C CT
        rwa [hClen] at this
      have hdrop : (C ++ CT).drop 16 = CT := by
        have := List.drop_left C CT
        rwa [hClen] at this
      simp [chunksM, htake, hdrop, hCdec, hCTdec, List.take_append_drop, bind, Except.bind]; rfl

theorem chunks_dec_total (K : List Nat) (hK : K.length = 16) (hKb : GoodBytes K) :
    ∀ n CT, CT.length = 16 * n → GoodBytes CT →
    ∃ P, chunksM (fun bl => decrypt_block bl K) n CT = .ok P ∧ P.length = 16 * n ∧
      GoodBytes P := by
  intro n
  induction n with
  | zero =>
    intro CT hCT _
    exact ⟨[], rfl, by simp, by simp [GoodBytes]⟩
  | succ n ih =>
    intro CT hCT hCTb
    have hBlen : (CT.take 16).length = 16 := by simp [List.length_take]; omega
    have hBb : GoodBytes (CT.take 16) := fun b hb => hCTb b (List.mem_of_mem_take hb)
    have hL'len : (CT.drop 16).length = 16 * n := by simp [List.length_drop]; omega
    have hL'b : GoodBytes (CT.drop 16) := fun b hb => hCTb b (List.mem_of_mem_drop hb)
    obtain ⟨P1, hP1, hP1len, hP1b⟩ := decrypt_block_total (CT.take 16) K hBlen hBb hK hKb
    obtain ⟨P, hP, hPlen, hPb⟩ := ih (CT.drop 16) hL'len hL'b
    refine ⟨P1 ++ P, by simp [chunksM, hP1, hP, bind, Except.bind]; rfl, by simp [hP1len, hPlen]; omega, ?_⟩
    intro b hb
    rcases List.mem_append.mp hb with h | h
    · exact hP1b b h
    · exact hPb b h

theorem encrypt_as_chunks (M K : List Nat) :
    encrypt M K = chunksM (fun bl => encrypt_block bl K)
      ((M.length + (16 - M.length % 16)) / 16)
      (M ++ List.replicate (16 - M.length % 16) (16 - M.length % 16)) := by
  have hlen : (M ++ List.replicate (16 - M.length % 16) (16 - M.length % 16)).length
      = M.length + (16 - M.length % 16) := by simp
  have hfold := foldlM_chunks (fun bl => encrypt_block bl K)
    (M ++ List.replicate (16 - M.length % 16) (16 - M.length % 16))
    ((M.length + (16 - M.length % 16)) / 16) 0 []
    (by rw [hlen]; omega)
  rw [List.drop_zero] at hfold
  show (List.range' 0 (((M ++ List.replicate (16 - M.length % 16)
      (16 - M.length % 16)).length + 15) / 16) 16).foldlM _ _ = _
  rw [hlen, show (M.length + (16 - M.length % 16) + 15) / 16
      = (M.length + (16 - M.length % 16)) / 16 from by omega]
  rw [hfold]
  cases chunksM (fun bl => encrypt_block bl K)
    ((M.length + (16 - M.length % 16)) / 16)
    (M ++ List.replicate (16 - M.length % 16) (16 - M.length % 16)) <;>
    simp [bind, Except.bind]
  rfl

theorem decrypt_as_chunks (CT K : List Nat) (n : Nat) (hn : CT.length = 16 * n)
    (P : List Nat) (hP : chunksM (fun bl => decrypt_block bl K) n CT = .ok P) :
    decrypt CT K = (match P.getLast? with
      | none => .error .indexError
      | some padding_len =>
        if padding_len > 0 ∧ padding_len ≤ 16 then
          if (P.drop (P.length - padding_len)).all (· == padding_len) then
            .ok (P.take (P.length - padding_len))
          else .ok P
        else .ok P) := by
  have hfold := foldlM_chunks (fun bl => decrypt_block bl K) CT n 0 [] (by omega)
  rw [List.drop_zero, hP] at hfold
  show (do
    let plaintext ← (List.range' 0 ((CT.length + 15) / 16) 16).foldlM (fun acc i => do
      let p ← decrypt_block ((CT.drop i).take 16) K
      pure (acc ++ p)) ([] : List Nat)
    match plaintext.getLast? with
    | none => Except.error AesError.indexError
    | some padding_len =>
      if padding_len > 0 ∧ padding_len ≤ 16 then
        if (plaintext.drop (plaintext.length - padding_len)).all (· == padding_len) then
          Except.ok (plaintext.take (plaintext.length - padding_len))
        else Except.ok plaintext
      else Except.ok plaintext) = _
  rw [show (CT.length + 15) / 16 = n from by omega, hfold]
  simp [bind, Except.bind, pure, Except.pure]

theorem message_roundtrip (M K : List Nat) (hMb : GoodBytes M) (hK : K.length = 16)
    (hKb : GoodBytes K) :
    (do let c ← encrypt M K; decrypt c K) = .ok M := by
  have hp1 : 1 ≤ 16 - M.length % 16 := by omega
  have hp16 : 16 - M.length % 16 ≤ 16 := by omega
  have hlen : (M ++ List.replicate (16 - M.length % 16) (16 - M.length % 16)).length
      = M.length + (16 - M.length % 16) := by simp
  have hmul : 16 * ((M.length + (16 - M.length % 16)) / 16)
      = M.length + (16 - M.length % 16) := by omega
  have hpb : GoodBytes (M ++ List.replicate (16 - M.length % 16) (16 - M.length % 16)) := by
    intro b hb
    rcases List.mem_append.mp hb with h | h
    · exact hMb b h
    · have := List.eq_of_mem_replicate h
      omega
  obtain ⟨CT, hCT, hCTlen, hCTb, hCTdec⟩ := chunks_roundtrip K hK hKb
    ((M.length + (16 - M.length % 16)) / 16)
    (M ++ List.replicate (16 - M.length % 16) (16 - M.length % 16))
    (by rw [hlen]; omega) hpb
  have henc : encrypt M K = .ok CT := by rw [encrypt_as_chunks, hCT]
  have hdec := decrypt_as_chunks CT K ((M.length + (16 - M.length % 16)) / 16)
    (by omega) _ hCTdec
  have hlast : (M ++ List.replicate (16 - M.length % 16) (16 - M.length % 16)).getLast?
      = some (16 - M.length % 16) := by
    rw [List.getLast?_append, List.getLast?_replicate, if_neg (by omega)]
    rfl
  have hdrop : ((M ++ List.replicate (16 - M.length % 16) (16 - M.length % 16)).drop
      ((M ++ List.replicate (16 - M.length % 16) (16 - M.length % 16)).length -
        (16 - M.length % 16)))
      = List.replicate (16 - M.length % 16) (16 - M.length % 16) := by
    rw [hlen, show M.length + (16 - M.length % 16) - (16 - M.length % 16) = M.length
        from by omega]
    have := List.drop_left M (List.replicate (16 - M.length % 16) (16 - M.length % 16))
    exact this
  have htake : ((M ++ List.replicate (16 - M.length % 16) (16 - M.length % 16)).take
      ((M ++ List.replicate (16 - M.length % 16) (16 - M.length % 16)).length -
        (16 - M.length % 16))) = M := by
    rw [hlen, show M.length + (16 - M.length % 16) - (16 - M.length % 16) = M.length
        from by omega]
    exact List.take_left M _
  rw [henc]
  show decrypt CT K = .ok M
  rw [hdec]
  simp only [hlast]
  rw [if_pos (show 16 - M.length % 16 > 0 ∧ 16 - M.length % 16 ≤ 16 from ⟨by omega, hp16⟩)]
  rw [hdrop, htake]
  have hall : (List.replicate (16 - M.length % 16) (16 - M.length % 16)).all
      (· == (16 - M.length % 16)) = true := by
    simp [List.all_eq_true]
  rw [if_pos hall]

theorem len16_destruct (l : List Nat) (hlen : l.length = 16) :
    ∃ x0 x1 x2 x3 x4 x5 x6 x7 x8 x9 x10 x11 x12 x13 x14 x15, l = [x0, x1, x2, x3, x4, x5, x6, x7, x8, x9, x10, x11, x12, x13, x14, x15] := by
  match l, hlen with
  | [x0, x1, x2, x3, x4, x5, x6, x7, x8, x9, x10, x11, x12, x13, x14, x15], _ => exact ⟨x0, x1, x2, x3, x4, x5, x6, x7, x8, x9, x10, x11, x12, x13, x14, x15, rfl⟩

theorem bytes_to_state_short (l : List Nat) (h : l.length < 16) : bytes_to_state l = none := by
  match l, h with
  | [], _ => rfl
  | [x0], _ => rfl
  | [x0, x1], _ => rfl
  | [x0, x1, x2], _ => rfl
  | [x0, x1, x2, x3], _ => rfl
  | [x0, x1, x2, x3, x4], _ => rfl
  | [x0, x1, x2, x3, x4, x5], _ => rfl
  | [x0, x1, x2, x3, x4, x5, x6], _ => rfl
  | [x0, x1, x2, x3, x4, x5, x6, x7], _ => rfl
  | [x0, x1, x2, x3, x4, x5, x6, x7, x8], _ => rfl
  | [x0, x1, x2, x3, x4, x5, x6, x7, x8, x9], _ => rfl
  | [x0, x1, x2, x3, x4, x5, x6, x7, x8, x9, x10], _ => rfl
  | [x0, x1, x2, x3, x4, x5, x6, x7, x8, x9, x10, x11], _ => rfl
  | [x0, x1, x2, x3, x4, x5, x6, x7, x8, x9, x10, x11, x12], _ => rfl
  | [x0, x1, x2, x3, x4, x5, x6, x7, x8, x9, x10, x11, x12, x13], _ => rfl
  | [x0, x1, x2, x3, x4, x5, x6, x7, x8, x9, x10, x11, x12, x13, x14], _ => rfl
  | x0 :: x1 :: x2 :: x3 :: x4 :: x5 :: x6 :: x7 :: x8 :: x9 :: x10 :: x11 :: x12 :: x13 :: x14 :: x15 :: rest, h => ?_
  exfalso
  simp at h
  omega

theorem bytes_to_state_take16 (l : List Nat) (h : 16 ≤ l.length) :
    bytes_to_state (l.take 16) = bytes_to_state l := by
  obtain ⟨x0, x1, x2, x3, x4, x5, x6, x7, x8, x9, x10, x11, x12, x13, x14, x15, he⟩ := len16_destruct (l.take 16)
    (by simp [List.length_take]; omega)
  conv_rhs => rw [← List.take_append_drop 16 l]
  rw [he]
  obtain ⟨rest, hrest⟩ : ∃ rest, l.drop 16 = rest := ⟨_, rfl⟩
  rw [hrest]
  rfl


/-! ## Claim theorems -/

/-- C1: for every message of bytes, of any length, and every 16-byte key, decrypting the encryption of the message under the same key returns exactly the message: the PKCS7 pad, per-block encryption, per-block decryption and pad removal compose to the identity. -/
theorem c1_message_round_trip (M K : List Nat) (hM : GoodBytes M)
    (hK : K.length = 16) (hKb : GoodBytes K) :
    (do let c ← encrypt M K; decrypt c K) = .ok M :=
  message_roundtrip M K hM hK hKb

theorem c1_witness : GoodBytes [1, 2, 3] ∧ fipsKey.length = 16 ∧ GoodBytes fipsKey ∧
    (do let c ← encrypt [1, 2, 3] fipsKey; decrypt c fipsKey) = .ok [1, 2, 3] :=
  ⟨by decide, by decide, by decide,
   c1_message_round_trip [1, 2, 3] fipsKey (by decide) (by decide) (by decide)⟩

/-- C2: for every 16-byte block and every 16-byte key, `decrypt_block` applied to the output of `encrypt_block` under the same key returns the original block: the ten-round inverse pipeline exactly undoes the forward pipeline. -/
theorem c2_block_round_trip (B K : List Nat) (hB : B.length = 16) (hBb : GoodBytes B)
    (hK : K.length = 16) (hKb : GoodBytes K) :
    (do let c ← encrypt_block B K; decrypt_block c K) = .ok B := by
  obtain ⟨C, hC, _, _, hdec⟩ := encrypt_block_roundtrip B K hB hBb hK hKb
  rw [hC]
  simpa [bind, Except.bind] using hdec

theorem c2_witness : fipsPT.length = 16 ∧ GoodBytes fipsPT ∧ fipsKey.length = 16 ∧
    GoodBytes fipsKey ∧
    (do let c ← encrypt_block fipsPT fipsKey; decrypt_block c fipsKey) = .ok fipsPT :=
  ⟨by decide, by decide, by decide, by decide,
   c2_block_round_trip fipsPT fipsKey (by decide) (by decide) (by decide) (by decide)⟩

/-- C3: `encrypt_block` maps the FIPS-197 plaintext 3243f6a8885a308d313198a2e0370734 under key 2b7e151628aed2a6abf7158809cf4f3c to the ciphertext 3925841d02dc09fbdc118597196a0b32, and `decrypt_block` maps that ciphertext back to that plaintext. -/
theorem c3_fips_vector : encrypt_block fipsPT fipsKey = .ok fipsCT ∧
    decrypt_block fipsCT fipsKey = .ok fipsPT :=
  ⟨rfl, rfl⟩

/-- C4, failing input: decrypting the ciphertext of the all-zero 16-byte block under the FIPS key yields the all-zero buffer with a successful result, although its trailing byte 0 is a malformed PKCS7 trailer: no InvalidPadding error is reported, contradicting the spec error taxonomy. -/
theorem c4_lenient_padding_eval : decrypt [0x7d, 0xf7, 0x6b, 0x0c, 0x1a, 0xb8, 0x99, 0xb3,
    0x3e, 0x42, 0xf0, 0x47, 0xb9, 0x1b, 0x54, 0x6f] fipsKey = .ok (List.replicate 16 0) := rfl


/-- C5: for every non-empty ciphertext whose length is a multiple of 16 and every 16-byte key, the block loop of `decrypt` produces a buffer, and whenever the trailing byte of that buffer fails PKCS7 validation (zero, above 16, or the last bytes not all equal to it), `decrypt` returns the entire buffer unmodified with no error. -/
theorem c5_invalid_padding_passthrough (CT K : List Nat) (n : Nat)
    (hn : CT.length = 16 * n) (hpos : 0 < n) (hCTb : GoodBytes CT)
    (hK : K.length = 16) (hKb : GoodBytes K) :
    ∃ P, (List.range' 0 ((CT.length + 15) / 16) 16).foldlM (fun acc i => do
        let p ← decrypt_block ((CT.drop i).take 16) K
        pure (acc ++ p)) ([] : List Nat) = .ok P ∧
      ∀ v, P.getLast? = some v →
        (¬(v > 0 ∧ v ≤ 16) ∨ (P.drop (P.length - v)).all (· == v) = false) →
        decrypt CT K = .ok P := by
  obtain ⟨P, hP, hPlen, hPb⟩ := chunks_dec_total K hK hKb n CT hn hCTb
  have hloop : (List.range' 0 ((CT.length + 15) / 16) 16).foldlM (fun acc i => do
      let p ← decrypt_block ((CT.drop i).take 16) K
      pure (acc ++ p)) ([] : List Nat) = .ok P := by
    have hfold := foldlM_chunks (fun bl => decrypt_block bl K) CT n 0 [] (by omega)
    rw [List.drop_zero, hP] at hfold
    rw [show (CT.length + 15) / 16 = n from by omega, hfold]
    simp [bind, Except.bind]
    rfl
  refine ⟨P, hloop, ?_⟩
  intro v hv hbad
  rw [decrypt_as_chunks CT K n hn P hP]
  simp only [hv]
  by_cases hc : v > 0 ∧ v ≤ 16
  · rcases hbad with h | h
    · exact absurd hc h
    · rw [if_pos hc, if_neg (by simp [h])]
  · rw [if_neg hc]

theorem c5_witness :
    ([0x7d, 0xf7, 0x6b, 0x0c, 0x1a, 0xb8, 0x99, 0xb3, 0x3e, 0x42, 0xf0, 0x47, 0xb9,
      0x1b, 0x54, 0x6f] : List Nat).length = 16 * 1 ∧ (0 : Nat) < 1 ∧
    GoodBytes [0x7d, 0xf7, 0x6b, 0x0c, 0x1a, 0xb8, 0x99, 0xb3, 0x3e, 0x42, 0xf0, 0x47,
      0xb9, 0x1b, 0x54, 0x6f] ∧ fipsKey.length = 16 ∧ GoodBytes fipsKey ∧
    ∃ P, (List.range' 0 ((([0x7d, 0xf7, 0x6b, 0x0c, 0x1a, 0xb8, 0x99, 0xb3, 0x3e, 0x42,
        0xf0, 0x47, 0xb9, 0x1b, 0x54, 0x6f] : List Nat).length + 15) / 16) 16).foldlM
        (fun acc i => do
          let p ← decrypt_block (([0x7d, 0xf7, 0x6b, 0x0c, 0x1a, 0xb8, 0x99, 0xb3, 0x3e,
            0x42, 0xf0, 0x47, 0xb9, 0x1b, 0x54, 0x6f].drop i).take 16) fipsKey
          pure (acc ++ p)) ([] : List Nat) = .ok P ∧
      ∀ v, P.getLast? = some v →
        (¬(v > 0 ∧ v ≤ 16) ∨ (P.drop (P.length - v)).all (· == v) = false) →
        decrypt [0x7d, 0xf7, 0x6b, 0x0c, 0x1a, 0xb8, 0x99, 0xb3, 0x3e, 0x42, 0xf0, 0x47,
          0xb9, 0x1b, 0x54, 0x6f] fipsKey = .ok P :=
  ⟨by decide, by decide, by decide, by decide, by decide,
   c5_invalid_padding_passthrough _ fipsKey 1 (by decide) (by decide) (by decide)
     (by decide) (by decide)⟩

/-- C6: `encrypt` appends `n = 16 - len(M) mod 16` pad bytes of value `n` (a full block of value 16 when the length is already a multiple of 16) and encrypts block by block, so the ciphertext length is `len(M) + n`, a positive multiple of 16. -/
theorem c6_ciphertext_length (M K : List Nat) (hM : GoodBytes M) (hK : K.length = 16)
    (hKb : GoodBytes K) :
    encrypt M K = chunksM (fun bl => encrypt_block bl K)
      ((M.length + (16 - M.length % 16)) / 16)
      (M ++ List.replicate (16 - M.length % 16) (16 - M.length % 16)) ∧
    ∃ C, encrypt M K = .ok C ∧ C.length = M.length + (16 - M.length % 16) ∧
      C.length % 16 = 0 ∧ 0 < C.length := by
  refine ⟨encrypt_as_chunks M K, ?_⟩
  have hlen : (M ++ List.replicate (16 - M.length % 16) (16 - M.length % 16)).length
      = M.length + (16 - M.length % 16) := by simp
  have hpb : GoodBytes (M ++ List.replicate (16 - M.length % 16) (16 - M.length % 16)) := by
    intro b hb
    rcases List.mem_append.mp hb with h | h
    · exact hM b h
    · have := List.eq_of_mem_replicate h
      omega
  obtain ⟨CT, hCT, hCTlen, hCTb, hCTdec⟩ := chunks_roundtrip K hK hKb
    ((M.length + (16 - M.length % 16)) / 16)
    (M ++ List.replicate (16 - M.length % 16) (16 - M.length % 16))
    (by rw [hlen]; omega) hpb
  refine ⟨CT, by rw [encrypt_as_chunks, hCT], by omega, by omega, by omega⟩

theorem c6_witness : GoodBytes [1, 2, 3] ∧ fipsKey.length = 16 ∧ GoodBytes fipsKey ∧
    (encrypt [1, 2, 3] fipsKey = chunksM (fun bl => encrypt_block bl fipsKey)
      ((([1, 2, 3] : List Nat).length + (16 - ([1, 2, 3] : List Nat).length % 16)) / 16)
      ([1, 2, 3] ++ List.replicate (16 - ([1, 2, 3] : List Nat).length % 16)
        (16 - ([1, 2, 3] : List Nat).length % 16)) ∧
    ∃ C, encrypt [1, 2, 3] fipsKey = .ok C ∧
      C.length = ([1, 2, 3] : List Nat).length +
        (16 - ([1, 2, 3] : List Nat).length % 16) ∧
      C.length % 16 = 0 ∧ 0 < C.length) :=
  ⟨by decide, by decide, by decide,
   c6_ciphertext_length [1, 2, 3] fipsKey (by decide) (by decide) (by decide)⟩

/-- C7: for every 4x4 state of bytes, `inv_mix_columns` applied to `mix_columns` of the state returns the state: the inverse matrix column transform over GF(2^8) exactly undoes MixColumns. -/
theorem c7_inv_mix_columns_inverse (S : State) (hS : GoodState S) :
    inv_mix_columns (mix_columns S) = S :=
  inv_mix_mix S hS

theorem c7_witness : GoodState [[0, 1, 2, 3], [4, 5, 6, 7], [8, 9, 10, 11],
      [12, 13, 14, 255]] ∧
    inv_mix_columns (mix_columns [[0, 1, 2, 3], [4, 5, 6, 7], [8, 9, 10, 11],
      [12, 13, 14, 255]]) = [[0, 1, 2, 3], [4, 5, 6, 7], [8, 9, 10, 11], [12, 13, 14, 255]] :=
  ⟨by decide, c7_inv_mix_columns_inverse _ (by decide)⟩

/-- C8, counterexample: a 17-byte plaintext is not rejected with InvalidBlockLength; `encrypt_block` silently encrypts its first 16 bytes and succeeds. -/
theorem c8_counterexample : encrypt_block (List.replicate 17 0) fipsKey =
    .ok [0x7d, 0xf7, 0x6b, 0x0c, 0x1a, 0xb8, 0x99, 0xb3, 0x3e, 0x42, 0xf0, 0x47,
      0xb9, 0x1b, 0x54, 0x6f] := rfl

/-- C8, amended: `encrypt_block` performs no block-length validation of its own: a key that is not 16 bytes fails with InvalidKeyLength (from key expansion, checked first); a plaintext of 16 bytes or more is silently truncated to its first 16 bytes; a shorter plaintext fails with an index error rather than InvalidBlockLength. -/
theorem c8_amended_behavior (pt key : List Nat) :
    (key.length ≠ 16 → encrypt_block pt key = .error .invalidKeyLength) ∧
    (16 ≤ pt.length → encrypt_block pt key = encrypt_block (pt.take 16) key) ∧
    (key.length = 16 → pt.length < 16 → encrypt_block pt key = .error .indexError) := by
  refine ⟨?_, ?_, ?_⟩
  · intro h
    have hke : key_expansion key = .error .invalidKeyLength := by
      rw [key_expansion]
      exact if_pos h
    simp [encrypt_block, hke, bind, Except.bind]
  · intro h
    simp only [encrypt_block, bytes_to_state_take16 pt h]
  · intro hk hlt
    have hke : ∃ rks, key_expansion key = .ok rks :=
      ⟨_, by rw [key_expansion, if_neg (by omega)]⟩
    obtain ⟨rks, hrks⟩ := hke
    simp [encrypt_block, hrks, bytes_to_state_short pt hlt, bind, Except.bind]

theorem c8_amended_witness :
    encrypt_block (List.replicate 16 0) (List.replicate 15 0) = .error .invalidKeyLength ∧
    encrypt_block (List.replicate 17 0) fipsKey =
      encrypt_block ((List.replicate 17 0).take 16) fipsKey ∧
    encrypt_block (List.replicate 15 0) fipsKey = .error .indexError :=
  ⟨(c8_amended_behavior (List.replicate 16 0) (List.replicate 15 0)).1 (by decide),
   (c8_amended_behavior (List.replicate 17 0) fipsKey).2.1 (by decide),
   (c8_amended_behavior (List.replicate 15 0) fipsKey).2.2 (by decide) (by decide)⟩

/-- C9: `decrypt` applied to an empty ciphertext does not return a value: the block loop produces an empty buffer and reading the trailing pad byte indexes position -1 of an empty sequence, which raises; the embedding reports this as an index error. -/
theorem c9_empty_ciphertext_error (K : List Nat) : decrypt [] K = .error .indexError := rfl

/-- C10: every visible transform primitive preserves the byte-range invariant: on 4x4 states with entries in 0..255, the outputs of `add_round_key`, `shift_rows`, `inv_shift_rows`, `mix_columns` and `inv_mix_columns` are again 4x4 states with entries in 0..255. -/
theorem c10_transforms_preserve_bytes (s k : State) (hs : GoodState s) (hk : GoodState k) :
    GoodState (add_round_key s k) ∧ GoodState (shift_rows s) ∧
    GoodState (inv_shift_rows s) ∧ GoodState (mix_columns s) ∧
    GoodState (inv_mix_columns s) :=
  ⟨good_ark s k hs hk, good_shift s hs, good_inv_shift s hs, good_mix s hs,
   good_inv_mix s hs⟩

theorem c10_witness : GoodState [[0, 1, 2, 3], [4, 5, 6, 7], [8, 9, 10, 11],
      [12, 13, 14, 15]] ∧ GoodState [[255, 1, 2, 3], [4, 5, 6, 7], [8, 9, 10, 11],
      [12, 13, 14, 15]] ∧
    (GoodState (add_round_key [[0, 1, 2, 3], [4, 5, 6, 7], [8, 9, 10, 11], [12, 13, 14, 15]]
        [[255, 1, 2, 3], [4, 5, 6, 7], [8, 9, 10, 11], [12, 13, 14, 15]]) ∧
      GoodState (shift_rows [[0, 1, 2, 3], [4, 5, 6, 7], [8, 9, 10, 11], [12, 13, 14, 15]]) ∧
      GoodState (inv_shift_rows [[0, 1, 2, 3], [4, 5, 6, 7], [8, 9, 10, 11],
        [12, 13, 14, 15]]) ∧
      GoodState (mix_columns [[0, 1, 2, 3], [4, 5, 6, 7], [8, 9, 10, 11], [12, 13, 14, 15]]) ∧
      GoodState (inv_mix_columns [[0, 1, 2, 3], [4, 5, 6, 7], [8, 9, 10, 11],
        [12, 13, 14, 15]])) :=
  ⟨by decide, by decide,
   c10_transforms_preserve_bytes _ _ (by decide) (by decide)⟩

end AES
